import Mathlib

/-!
Verification development for the entity-component substrate of the
GoldMiner/Breakout repository.  The storage/query core (the "bagel" ECS
library) is included by the game code but its implementation file is not
part of the sources at hand; following the specification document, the
core is modelled here from the spec's contracts (each such definition is
marked `Modelled from the spec:`).  The game systems `DestroySystem` and
`MovementSystem` are translated from `breakoutGame/breakout_game.cpp`.
Machine integers are modelled as `Nat`/`Int`; the games' `float` payload
fields are modelled over `Int` (no claim depends on rounding behaviour).
-/

set_option autoImplicit false

/-! ### Generic list helpers used by the storage models -/

/-- Lookup in an entity-indexed table of optional entries; indices beyond
the end of the table read as absent. -/
def getO {β : Type} (l : List (Option β)) (e : Nat) : Option β :=
  l.getD e none

/-- Write into an entity-indexed table of optional entries, growing the
table with absent entries when the index is past the end. -/
def setGrow {β : Type} : List (Option β) → Nat → Option β → List (Option β)
  | [], 0, v => [v]
  | [], n + 1, v => none :: setGrow [] n v
  | _ :: l, 0, v => v :: l
  | a :: l, n + 1, v => a :: setGrow l n v

theorem getO_nil {β : Type} (e : Nat) : getO ([] : List (Option β)) e = none := by
  cases e <;> rfl

theorem getO_cons_succ {β : Type} (a : Option β) (l : List (Option β)) (e : Nat) :
    getO (a :: l) (e + 1) = getO l e := rfl

theorem getO_setGrow {β : Type} (l : List (Option β)) (e x : Nat) (v : Option β) :
    getO (setGrow l e v) x = if x = e then v else getO l x := by
  induction l generalizing e x with
  | nil =>
    induction e generalizing x with
    | zero =>
      cases x with
      | zero => simp [setGrow, getO]
      | succ n => simp [setGrow, getO_cons_succ, getO_nil]
    | succ n ih =>
      cases x with
      | zero => simp [setGrow, getO]
      | succ m => simpa [setGrow, getO_cons_succ, getO_nil] using ih m
  | cons a l ih =>
    cases e with
    | zero =>
      cases x with
      | zero => simp [setGrow, getO]
      | succ m => simp [setGrow, getO_cons_succ]
    | succ n =>
      cases x with
      | zero => simp [setGrow, getO]
      | succ m => simpa [setGrow, getO_cons_succ] using ih n m

theorem getO_ge_length {β : Type} (l : List (Option β)) (e : Nat) (h : l.length ≤ e) :
    getO l e = none := by
  induction l generalizing e with
  | nil => exact getO_nil e
  | cons a l ih =>
    cases e with
    | zero => simp at h
    | succ n =>
      rw [getO_cons_succ]
      exact ih n (Nat.le_of_succ_le_succ h)

theorem getO_set {β : Type} (l : List (Option β)) (i x : Nat) (v : Option β) :
    getO (l.set i v) x = if x = i ∧ i < l.length then v else getO l x := by
  induction l generalizing i x with
  | nil => simp [getO_nil]
  | cons a l ih =>
    cases i with
    | zero =>
      cases x with
      | zero => simp [getO]
      | succ m => simp [List.set, getO_cons_succ]
    | succ n =>
      cases x with
      | zero => simp [List.set, getO]
      | succ m =>
        rw [List.set, getO_cons_succ, getO_cons_succ, ih n m]
        simp [Nat.succ_lt_succ_iff]

/-- Setting a slot to the value it already holds leaves the list unchanged
(out-of-range writes are no-ops as well). -/
theorem set_getD_eq_self {α : Type} (l : List α) (i : Nat) (d : α) :
    l.set i (l.getD i d) = l := by
  induction l generalizing i with
  | nil => rfl
  | cons a l ih =>
    cases i with
    | zero => rfl
    | succ n =>
      show a :: l.set n (l.getD n d) = a :: l
      rw [ih n]

theorem getD_set {α : Type} (l : List α) (i x : Nat) (v d : α) :
    (l.set i v).getD x d = if x = i ∧ i < l.length then v else l.getD x d := by
  induction l generalizing i x with
  | nil => simp
  | cons a l ih =>
    cases i with
    | zero =>
      cases x with
      | zero => simp
      | succ m => simp [List.set]
    | succ n =>
      cases x with
      | zero => simp [List.set]
      | succ m =>
        show (l.set n v).getD m d = _
        rw [ih n m]
        simp [Nat.succ_lt_succ_iff, List.getD_cons_succ]

theorem getD_append_elem {α : Type} (l : List α) (a : α) (x : Nat) (d : α) :
    (l ++ [a]).getD x d = if x = l.length then a else l.getD x d := by
  induction l generalizing x with
  | nil =>
    cases x with
    | zero => simp
    | succ n => simp [List.getD]
  | cons b l ih =>
    cases x with
    | zero => simp
    | succ m =>
      show (l ++ [a]).getD m d = _
      rw [ih m]
      simp

theorem get?_append_left {α : Type} (l l2 : List α) (n : Nat) (h : n < l.length) :
    (l ++ l2).get? n = l.get? n := by
  induction l generalizing n with
  | nil => simp at h
  | cons a l ih =>
    cases n with
    | zero => rfl
    | succ m => exact ih m (Nat.lt_of_succ_lt_succ h)

theorem get?_concat_length {α : Type} (l : List α) (a : α) :
    (l ++ [a]).get? l.length = some a := by
  induction l with
  | nil => rfl
  | cons b l ih => exact ih

theorem set_concat_length {α : Type} (l : List α) (a b : α) :
    (l ++ [a]).set l.length b = l ++ [b] := by
  induction l with
  | nil => rfl
  | cons c l ih =>
    show c :: (l ++ [a]).set l.length b = c :: (l ++ [b])
    rw [ih]

theorem get?_set_ne_idx {α : Type} (l : List α) (i j : Nat) (v : α) (h : j ≠ i) :
    (l.set i v).get? j = l.get? j := by
  induction l generalizing i j with
  | nil => rfl
  | cons a l ih =>
    cases i with
    | zero =>
      cases j with
      | zero => exact absurd rfl h
      | succ m => rfl
    | succ n =>
      cases j with
      | zero => rfl
      | succ m => exact ih n m (fun hc => h (by rw [hc]))

theorem get?_dropLast {α : Type} (l : List α) (n : Nat) :
    l.dropLast.get? n = if n + 1 < l.length then l.get? n else none := by
  induction l generalizing n with
  | nil => simp
  | cons a l ih =>
    cases l with
    | nil => cases n <;> simp [List.dropLast]
    | cons b l2 =>
      cases n with
      | zero => simp [List.dropLast]
      | succ m =>
        show (b :: l2).dropLast.get? m = _
        rw [ih m]
        simp [Nat.succ_lt_succ_iff]

theorem getLast?_eq_get? {α : Type} (l : List α) :
    l.getLast? = l.get? (l.length - 1) := by
  induction l with
  | nil => rfl
  | cons a l ih =>
    cases l with
    | nil => rfl
    | cons b l2 =>
      rw [List.getLast?_cons_cons, ih]
      simp

theorem set_of_get? {α : Type} (l : List α) (i : Nat) (v : α)
    (h : l.get? i = some v) : l.set i v = l := by
  induction l generalizing i with
  | nil => rfl
  | cons a l ih =>
    cases i with
    | zero =>
      simp only [List.get?] at h
      cases h
      rfl
    | succ n =>
      show a :: l.set n v = a :: l
      rw [ih n h]

/-! ### Entity mask

Modelled from the spec: an entity mask is a fixed-width bit-set of size
MaxComponents; the bit at a component's registry index is set iff that
entity currently has that component.  The bit pattern is modelled as a
natural number; all operations only ever touch bits below MaxComponents,
so the fixed-width and unbounded views agree. -/

/-- Modelled from the spec: the single-bit pattern for registry index `i`
(`Mask::bit(i)` in the callers). -/
def Mask.bit (i : Nat) : Nat := 1 <<< i

/-- Modelled from the spec: set the given bits in the mask (`Mask::set`). -/
def Mask.set (m b : Nat) : Nat := m ||| b

/-- Modelled from the spec: clear the given bits of the mask
(`Mask::clear`); clearing the common bits of `m` and `b` is XOR with
their intersection. -/
def Mask.clear (m b : Nat) : Nat := m ^^^ (m &&& b)

/-- Modelled from the spec: `test(required)` returns true iff all bits set
in `required` are also set in the mask (AND-equality on the required
subset). -/
def Mask.test (m required : Nat) : Bool := m &&& required == required

/-- Index of the lowest set bit of a nonzero number (count trailing
zeros); junk value 0 on input 0. -/
def lowBit (m : Nat) : Nat :=
  if h : m = 0 then 0
  else if m % 2 == 1 then 0
  else lowBit (m / 2) + 1
termination_by m
decreasing_by
  exact Nat.div_lt_self (Nat.pos_of_ne_zero h) (by decide)

/-- Modelled from the spec and the callers: `Mask::ctz()` returns the
index of the lowest set bit, or a negative value when the mask is empty
(the breakout destruction loop tests `ctz() >= 0`). -/
def Mask.ctz (m : Nat) : Int :=
  if m == 0 then -1 else (lowBit m : Int)

theorem Mask.bit_eq_two_pow (t : Nat) : Mask.bit t = 2 ^ t := by
  rw [Mask.bit, Nat.shiftLeft_eq, Nat.one_mul]

theorem Mask.test_bit (m t : Nat) : Mask.test m (Mask.bit t) = m.testBit t := by
  rw [Mask.test, Mask.bit_eq_two_pow, Nat.and_two_pow]
  cases h : m.testBit t with
  | false =>
    simp only [Bool.toNat_false, Nat.zero_mul, beq_eq_false_iff_ne]
    exact (Nat.two_pow_pos t).ne
  | true => simp

theorem Mask.testBit_set (m b i : Nat) :
    (Mask.set m b).testBit i = (m.testBit i || b.testBit i) :=
  Nat.testBit_or m b i

theorem Mask.testBit_clear (m b i : Nat) :
    (Mask.clear m b).testBit i = (m.testBit i && !(b.testBit i)) := by
  rw [Mask.clear, Nat.testBit_xor, Nat.testBit_and]
  cases m.testBit i <;> cases b.testBit i <;> rfl

theorem Mask.testBit_bit (t i : Nat) :
    (Mask.bit t).testBit i = decide (i = t) := by
  rw [Mask.bit_eq_two_pow]
  by_cases h : i = t
  · subst h; simp [Nat.testBit_two_pow_self]
  · simp [Nat.testBit_two_pow_of_ne (fun hc => h hc.symm), h]

/-- The subset reading of `Mask.test`: it holds exactly when every bit of
`required` is set in `m`. -/
theorem Mask.test_iff (m required : Nat) :
    Mask.test m required = true ↔ ∀ i, required.testBit i = true → m.testBit i = true := by
  rw [Mask.test, beq_iff_eq]
  constructor
  · intro h i hi
    have := congrArg (fun x => x.testBit i) h
    simp only [Nat.testBit_and, hi, Bool.and_true] at this
    exact this
  · intro h
    apply Nat.eq_of_testBit_eq
    intro i
    rw [Nat.testBit_and]
    cases hr : required.testBit i with
    | false => simp
    | true => simp [h i hr]

theorem Mask.test_ne_zero {m b : Nat} (hb : b ≠ 0) (h : Mask.test m b = true) : m ≠ 0 := by
  intro hm
  subst hm
  rw [Mask.test, Nat.zero_and, beq_iff_eq] at h
  exact hb h.symm

theorem Mask.bit_ne_zero (t : Nat) : Mask.bit t ≠ 0 := by
  rw [Mask.bit_eq_two_pow]
  exact (Nat.two_pow_pos t).ne'

theorem lowBit_testBit (m : Nat) (h : m ≠ 0) : m.testBit (lowBit m) = true := by
  induction m using Nat.strong_induction_on with
  | _ m ih =>
    by_cases h2 : m % 2 = 1
    · have hl : lowBit m = 0 := by rw [lowBit]; simp [h, h2]
      rw [hl, Nat.testBit_zero]
      simp [h2]
    · have h3 : m % 2 = 0 := (Nat.mod_two_eq_zero_or_one m).resolve_right h2
      have hm2 : m / 2 ≠ 0 := by omega
      have hl : lowBit m = lowBit (m / 2) + 1 := by rw [lowBit]; simp [h, h3]
      rw [hl, ← Nat.succ_eq_add_one, Nat.testBit_succ]
      exact ih (m / 2) (Nat.div_lt_self (Nat.pos_of_ne_zero h) (by decide)) hm2

theorem clear_lowBit_lt (m : Nat) (h : m ≠ 0) :
    Mask.clear m (Mask.bit (lowBit m)) < m := by
  apply Nat.lt_of_testBit (lowBit m)
  · rw [Mask.testBit_clear, Mask.testBit_bit]
    simp
  · exact lowBit_testBit m h
  · intro j hj
    rw [Mask.testBit_clear, Mask.testBit_bit]
    simp [Nat.ne_of_gt hj]

/-- The manual bit-by-bit destruction loop of breakout's `DestroySystem`:
while `ctz()` is nonnegative, clear the lowest set bit. -/
def clearAllBits (m : Nat) : Nat :=
  if h : Mask.ctz m ≥ 0 then
    clearAllBits (Mask.clear m (Mask.bit (Mask.ctz m).toNat))
  else m
termination_by m
decreasing_by
  have hm : m ≠ 0 := by
    intro hz
    subst hz
    simp [Mask.ctz] at h
  have : Mask.ctz m = (lowBit m : Int) := by simp [Mask.ctz, hm]
  rw [this]
  simpa using clear_lowBit_lt m hm

/-- The destruction loop always terminates with an all-zero mask. -/
theorem clearAllBits_eq_zero (m : Nat) : clearAllBits m = 0 := by
  induction m using Nat.strong_induction_on with
  | _ m ih =>
    rw [clearAllBits]
    by_cases hm : m = 0
    · subst hm
      simp [Mask.ctz]
    · have hc : Mask.ctz m = (lowBit m : Int) := by simp [Mask.ctz, hm]
      have hge : Mask.ctz m ≥ 0 := by rw [hc]; exact Int.ofNat_nonneg _
      simp only [hge, dite_true, hc, Int.toNat_ofNat]
      exact ih _ (clear_lowBit_lt m hm)

/-! ### Storage strategies

Modelled from the spec: three interchangeable backing structures for the
data of a component type across all entities.  All component payloads are
modelled over one payload type (a pair of integers covers every payload
struct of the games: positions, velocities, collider sizes, single-field
payloads use the first component). -/

/-- Payload values of game components; `float` fields are modelled over
`Int`. -/
abbrev Payload := Int × Int

/-- Modelled from the spec: packed/dense storage — a dense contiguous
array of payloads in unspecified order together with a slot→entity
back-index (here fused into one list of pairs) plus an entity→slot index
table. -/
structure PackedStorage where
  dense : List (Nat × Payload)
  slotOf : List (Option Nat)
deriving DecidableEq

/-- Entity→slot lookup of the packed storage's index table. -/
def PackedStorage.slotIdx (s : PackedStorage) (e : Nat) : Option Nat :=
  getO s.slotOf e

/-- Modelled from the spec: `has(EntityId)` of a packed storage consults
the entity→slot index. -/
def PackedStorage.hasEnt (s : PackedStorage) (e : Nat) : Bool :=
  (s.slotIdx e).isSome

/-- Modelled from the spec: `get(EntityId)` of a packed storage — absent
entities have no payload (the fatal path of the C++ contract is modelled
as `none`). -/
def PackedStorage.get (s : PackedStorage) (e : Nat) : Option Payload :=
  (s.slotIdx e).bind (fun i => (s.dense.get? i).map Prod.snd)

/-- Modelled from the spec: `set(EntityId, payload)` — overwrite in place
when present, otherwise append to the dense array and record the mapping. -/
def PackedStorage.set (s : PackedStorage) (e : Nat) (v : Payload) : PackedStorage :=
  match s.slotIdx e with
  | some i => { s with dense := s.dense.set i (e, v) }
  | none =>
    { dense := s.dense ++ [(e, v)],
      slotOf := setGrow s.slotOf e (some s.dense.length) }

/-- Modelled from the spec: `remove(EntityId)` — O(1) swap-with-last: the
last dense entry is moved into the freed slot, both index entries are
updated, and the dense array shrinks by one.  No-op when absent. -/
def PackedStorage.remove (s : PackedStorage) (e : Nat) : PackedStorage :=
  match s.slotIdx e with
  | none => s
  | some i =>
    match s.dense.getLast? with
    | none => s
    | some lastPair =>
      { dense := (s.dense.set i lastPair).dropLast,
        slotOf := setGrow (setGrow s.slotOf lastPair.1 (some i)) e none }

/-- Representation invariant of a packed storage: the entity→slot table
and the slot→entity back-index are inverse to each other. -/
structure PackedStorage.WF (s : PackedStorage) : Prop where
  slotToEnt : ∀ e i, s.slotIdx e = some i → ∃ v, s.dense.get? i = some (e, v)
  entToSlot : ∀ i e v, s.dense.get? i = some (e, v) → s.slotIdx e = some i

/-- Executable check equivalent to the packed-storage invariant on the
finite part of the tables. -/
def PackedStorage.wfCheck (s : PackedStorage) : Bool :=
  (List.range s.slotOf.length).all (fun e =>
    match getO s.slotOf e with
    | some i =>
      match s.dense.get? i with
      | some p => p.1 == e
      | none => false
    | none => true) &&
  (List.range s.dense.length).all (fun i =>
    match s.dense.get? i with
    | some p => getO s.slotOf p.1 == some i
    | none => true)

theorem PackedStorage.wf_of_wfCheck (s : PackedStorage) (h : s.wfCheck = true) :
    s.WF := by
  rw [PackedStorage.wfCheck, Bool.and_eq_true, List.all_eq_true, List.all_eq_true] at h
  obtain ⟨h1, h2⟩ := h
  constructor
  · intro e i he
    by_cases hlen : e < s.slotOf.length
    · have h3 := h1 e (List.mem_range.mpr hlen)
      rw [PackedStorage.slotIdx] at he
      simp only [he] at h3
      cases hd : s.dense.get? i with
      | none =>
        simp only [hd] at h3
        exact absurd h3 (by simp)
      | some p =>
        simp only [hd, beq_iff_eq] at h3
        exact ⟨p.2, by cases p; cases h3; rfl⟩
    · rw [PackedStorage.slotIdx, getO_ge_length s.slotOf e (Nat.le_of_not_lt hlen)] at he
      exact absurd he (by simp)
  · intro i e v hd
    have hlen : i < s.dense.length := by
      by_contra hge
      rw [List.get?_eq_none.mpr (Nat.le_of_not_lt hge)] at hd
      exact absurd hd (by simp)
    have h3 := h2 i (List.mem_range.mpr hlen)
    simp only [hd, beq_iff_eq] at h3
    rw [PackedStorage.slotIdx]
    exact h3

/-- Modelled from the spec: sparse storage — an array indexed directly by
entity identity holding the payload or absent. -/
structure SparseStorage where
  data : List (Option Payload)
deriving DecidableEq

/-- Modelled from the spec: `has(EntityId)` of a sparse storage. -/
def SparseStorage.hasEnt (s : SparseStorage) (e : Nat) : Bool :=
  (getO s.data e).isSome

/-- Modelled from the spec: `get(EntityId)` of a sparse storage. -/
def SparseStorage.get (s : SparseStorage) (e : Nat) : Option Payload :=
  getO s.data e

/-- Modelled from the spec: `set(EntityId, payload)` writes one slot. -/
def SparseStorage.set (s : SparseStorage) (e : Nat) (v : Payload) : SparseStorage :=
  { data := setGrow s.data e (some v) }

/-- Modelled from the spec: `remove(EntityId)` is an O(1) direct clear. -/
def SparseStorage.remove (s : SparseStorage) (e : Nat) : SparseStorage :=
  { data := s.data.set e none }

/-- Modelled from the spec: a component type is statically bound to one of
the three storage strategies; tag storage carries no payload (presence is
the mask bit itself). -/
inductive Storage where
  | packed : PackedStorage → Storage
  | sparse : SparseStorage → Storage
  | tagged : Storage
deriving DecidableEq

/-- Structural well-formedness of one storage (only packed storages carry
an internal invariant). -/
def Storage.SWF : Storage → Prop
  | .packed s => s.WF
  | .sparse _ => True
  | .tagged => True

theorem get?_set_self {α : Type} (l : List α) (i : Nat) (v : α) (h : i < l.length) :
    (l.set i v).get? i = some v := by
  induction l generalizing i with
  | nil => simp at h
  | cons a l ih =>
    cases i with
    | zero => rfl
    | succ n => exact ih n (Nat.lt_of_succ_lt_succ h)

theorem PackedStorage.slotIdx_set (s : PackedStorage) (e x : Nat) (v : Payload) :
    (s.set e v).slotIdx x =
      if s.hasEnt e then s.slotIdx x
      else if x = e then some s.dense.length else s.slotIdx x := by
  rw [PackedStorage.set]
  cases he : s.slotIdx e with
  | some i =>
    have hh : s.hasEnt e = true := by rw [PackedStorage.hasEnt, he]; rfl
    rw [if_pos hh]
    rfl
  | none =>
    have hh : s.hasEnt e = false := by rw [PackedStorage.hasEnt, he]; rfl
    rw [if_neg (by rw [hh]; exact Bool.false_ne_true)]
    show getO (setGrow s.slotOf e (some s.dense.length)) x = _
    rw [getO_setGrow]
    rfl

theorem PackedStorage.hasEnt_set (s : PackedStorage) (e x : Nat) (v : Payload) :
    (s.set e v).hasEnt x = if x = e then true else s.hasEnt x := by
  rw [PackedStorage.hasEnt, PackedStorage.slotIdx_set]
  by_cases he : s.hasEnt e = true
  · rw [if_pos he]
    by_cases hx : x = e
    · subst hx
      rw [if_pos rfl]
      exact he
    · rw [if_neg hx]
      rfl
  · rw [if_neg he]
    by_cases hx : x = e
    · subst hx
      rw [if_pos rfl, if_pos rfl]
      rfl
    · rw [if_neg hx, if_neg hx]
      rfl

theorem PackedStorage.length_pos_of_slot (s : PackedStorage) (hwf : s.WF) {e i : Nat}
    (h : s.slotIdx e = some i) : i < s.dense.length := by
  obtain ⟨v, hv⟩ := hwf.slotToEnt e i h
  by_contra hge
  rw [List.get?_eq_none.mpr (Nat.le_of_not_lt hge)] at hv
  exact absurd hv (by simp)

theorem PackedStorage.hasEnt_remove_self (s : PackedStorage) (hwf : s.WF) (e : Nat) :
    (s.remove e).hasEnt e = false := by
  rw [PackedStorage.remove]
  cases he : s.slotIdx e with
  | none => simp [PackedStorage.hasEnt, he]
  | some i =>
    have hipos : i < s.dense.length := s.length_pos_of_slot hwf he
    have hlen : s.dense.length - 1 < s.dense.length :=
      Nat.sub_lt (Nat.lt_of_le_of_lt (Nat.zero_le i) hipos) (by decide)
    cases hl : s.dense.getLast? with
    | none =>
      rw [getLast?_eq_get?, List.get?_eq_none] at hl
      omega
    | some lp =>
      simp only [PackedStorage.hasEnt, PackedStorage.slotIdx]
      rw [getO_setGrow]
      simp

theorem PackedStorage.hasEnt_remove_other (s : PackedStorage) (hwf : s.WF) (e x : Nat)
    (hne : x ≠ e) : (s.remove e).hasEnt x = s.hasEnt x := by
  rw [PackedStorage.remove]
  cases he : s.slotIdx e with
  | none => rfl
  | some i =>
    cases hl : s.dense.getLast? with
    | none => rfl
    | some lp =>
      have hdl : s.dense.get? (s.dense.length - 1) = some lp := by
        rw [← getLast?_eq_get?, hl]
      have hslotlp : getO s.slotOf lp.1 = some (s.dense.length - 1) :=
        hwf.entToSlot _ lp.1 lp.2 hdl
      simp only [PackedStorage.hasEnt, PackedStorage.slotIdx]
      rw [getO_setGrow, getO_setGrow, if_neg hne]
      by_cases hx : x = lp.1
      · subst hx
        rw [if_pos rfl, hslotlp]
        rfl
      · rw [if_neg hx]

theorem PackedStorage.get_remove_other (s : PackedStorage) (hwf : s.WF) (e x : Nat)
    (hne : x ≠ e) : (s.remove e).get x = s.get x := by
  rw [PackedStorage.remove]
  cases he : s.slotIdx e with
  | none => rfl
  | some i =>
    obtain ⟨vi, hdi⟩ := hwf.slotToEnt e i he
    have hipos : i < s.dense.length := s.length_pos_of_slot hwf he
    cases hl : s.dense.getLast? with
    | none => rfl
    | some lp =>
      have hdl : s.dense.get? (s.dense.length - 1) = some lp := by
        rw [← getLast?_eq_get?, hl]
      have hslotlp : getO s.slotOf lp.1 = some (s.dense.length - 1) :=
        hwf.entToSlot _ lp.1 lp.2 hdl
      simp only [PackedStorage.get, PackedStorage.slotIdx]
      rw [getO_setGrow, getO_setGrow, if_neg hne]
      by_cases hx : x = lp.1
      · subst hx
        have hie : i ≠ s.dense.length - 1 := by
          intro hc
          rw [hc, hdl] at hdi
          have h6 : lp.1 = e := by cases hdi; rfl
          exact hne h6
        rw [if_pos rfl, hslotlp, Option.some_bind, Option.some_bind,
          get?_dropLast, List.length_set, if_pos (by omega),
          get?_set_self _ _ _ hipos, hdl]
      · rw [if_neg hx]
        cases hsx : getO s.slotOf x with
        | none => rfl
        | some j =>
          obtain ⟨vj, hdj⟩ := hwf.slotToEnt x j hsx
          have hji : j ≠ i := by
            intro hc
            rw [hc, hdi] at hdj
            have h6 : x = e := by cases hdj; rfl
            exact hne h6
          have hjl : j ≠ s.dense.length - 1 := by
            intro hc
            rw [hc, hdl] at hdj
            have h6 : x = lp.1 := by cases hdj; rfl
            exact hx h6
          have hjpos : j < s.dense.length := by
            by_contra hge
            rw [List.get?_eq_none.mpr (Nat.le_of_not_lt hge)] at hdj
            exact absurd hdj (by simp)
          rw [Option.some_bind, Option.some_bind, get?_dropLast, List.length_set,
            if_pos (by omega), get?_set_ne_idx _ _ _ _ hji]

/-! ### Entity/World Facade

Modelled from the spec: the world is the fixed-capacity registry — one
mask per allocated identity (the identity is the index into the mask
table), one storage per registered component type (the component type's
registry index, its bit position, is the index into the storage table),
plus the identity allocator's capacity and the dynamic-growth
configuration flag. -/

structure World where
  masks : List Nat
  storages : List Storage
  capacity : Nat
  dynamicResize : Bool
deriving DecidableEq

/-- Modelled from the spec: `maxId()` — the high-water mark, the inclusive
upper bound of full-table scans. -/
def World.maxId (w : World) : Nat := w.masks.length - 1

/-- Modelled from the spec: `mask(EntityId)` read access; identities
beyond the table read as the all-zero mask. -/
def World.maskOf (w : World) (e : Nat) : Nat := w.masks.getD e 0

/-- The storage bound to component registry index `t` (component types
without a registered payload storage behave as tag storages: presence is
the mask bit itself). -/
def World.storageAt (w : World) (t : Nat) : Storage :=
  w.storages.getD t Storage.tagged

/-- Modelled from the spec: `hasComponent<T>(EntityId)` — a mask test with
the single-bit mask of T's registry index. -/
def World.hasComponent (w : World) (t e : Nat) : Bool :=
  Mask.test (w.maskOf e) (Mask.bit t)

/-- Membership according to T's storage (`has(EntityId)` of the bound
storage); for a tag storage presence is the mask bit itself. -/
def World.storageHas (w : World) (t e : Nat) : Bool :=
  match w.storageAt t with
  | .packed s => s.hasEnt e
  | .sparse s => s.hasEnt e
  | .tagged => w.hasComponent t e

/-- Modelled from the spec: `getComponent<T>(EntityId)` — the storage's
`get`; the fatal path (entity does not have T) is modelled as `none`.
Tag storages have no payload; their `get` is a marker-only handle. -/
def World.getComponent (w : World) (t e : Nat) : Option Payload :=
  match w.storageAt t with
  | .packed s => s.get e
  | .sparse s => s.get e
  | .tagged => if w.hasComponent t e then some (0, 0) else none

/-- Modelled from the spec: `addComponent<T>(EntityId, value)` — writes
into T's bound storage and sets T's bit for that entity; idempotent when
already present (overwrites the payload).  Passing an identity that is
not currently valid is a fatal precondition violation; it is modelled as
leaving the world unchanged. -/
def World.addComponent (w : World) (t e : Nat) (v : Payload) : World :=
  if e < w.masks.length then
    { w with
      masks := w.masks.set e (Mask.set (w.maskOf e) (Mask.bit t)),
      storages :=
        match w.storageAt t with
        | .packed s => w.storages.set t (.packed (s.set e v))
        | .sparse s => w.storages.set t (.sparse (s.set e v))
        | .tagged => w.storages }
  else w

/-- Modelled from the spec: `removeComponent<T>(EntityId)` — clears T's
bit and T's storage slot; a no-op when the component is not present
(never fails, defined for all inputs). -/
def World.removeComponent (w : World) (t e : Nat) : World :=
  { w with
    masks := w.masks.set e (Mask.clear (w.maskOf e) (Mask.bit t)),
    storages :=
      match w.storageAt t with
      | .packed s => w.storages.set t (.packed (s.remove e))
      | .sparse s => w.storages.set t (.sparse (s.remove e))
      | .tagged => w.storages }

/-- The mutable-mask access path used only by the breakout destruction
loop (`World::maskMutable`): replace an entity's mask wholesale. -/
def World.setMask (w : World) (e m : Nat) : World :=
  { w with masks := w.masks.set e m }

/-- Modelled from the spec: the identity allocator reuses a free identity
if one exists — an identity is free exactly when its mask is empty. -/
def findFreeId : List Nat → Option Nat
  | [] => none
  | m :: rest => if m == 0 then some 0 else (findFreeId rest).map (· + 1)

/-- Modelled from the spec: `createEntity()` — reuse a free identity if
one exists, else extend the high-water mark; when the static capacity is
exhausted, grow it (amortized doubling) if dynamic growth is configured,
otherwise fail fatally (modelled as `none`).  The fresh identity's mask
is all-zero. -/
def World.createEntity (w : World) : Option (World × Nat) :=
  match findFreeId w.masks with
  | some id => some (w, id)
  | none =>
    if w.masks.length < w.capacity then
      some ({ w with masks := w.masks ++ [0] }, w.masks.length)
    else if w.dynamicResize then
      let w2 : World :=
        { w with
          masks := w.masks ++ [0]
          capacity := max (2 * w.capacity) (w.masks.length + 1) }
      some (w2, w.masks.length)
    else none

/-- The configuration of this repository (`bagel_cfg.h`): dynamic resize
of the registry is enabled. -/
def Params.DynamicResize : Bool := true

/-- Mask/storage coherence at one (component type, entity) point: the
Facade membership test agrees with the storage's own membership. -/
def World.coherentAt (w : World) (t e : Nat) : Prop :=
  w.hasComponent t e = w.storageHas t e

/-- Mask/storage coherence at every (component type, entity) point. -/
def World.Coherent (w : World) : Prop :=
  ∀ t e, w.coherentAt t e

/-- Structural well-formedness of every storage of the world. -/
def World.SWF (w : World) : Prop :=
  ∀ s ∈ w.storages, s.SWF

/-- A full scan over identities `0..maxId` keeping exactly the identities
whose mask passes `test(required)` — the iteration pattern of every
system in both games. -/
def World.queryScan (w : World) (required : Nat) : List Nat :=
  (List.range (w.maxId + 1)).filter (fun id => Mask.test (w.maskOf id) required)

/-- Observational equivalence of two worlds: same high-water mark, same
mask for every identity (hence the same membership tests and the same
query results), and the same retrievable payload for every component type
and entity. -/
def World.ObsEq (w1 w2 : World) : Prop :=
  w1.maxId = w2.maxId ∧
  (∀ e, w1.maskOf e = w2.maskOf e) ∧
  (∀ t e, w1.getComponent t e = w2.getComponent t e)

/-- Write-through of a component reference obtained from `getComponent`
(in the C++, `pos.x += vel.dx` mutates the stored payload through the
returned reference): update the payload in T's storage without touching
the mask. -/
def World.writeComponent (w : World) (t e : Nat) (v : Payload) : World :=
  { w with storages :=
      match w.storageAt t with
      | .packed s => w.storages.set t (.packed (s.set e v))
      | .sparse s => w.storages.set t (.sparse (s.set e v))
      | .tagged => w.storages }

/-! ### Breakout game systems (translated from breakoutGame/breakout_game.cpp)

Registry indices (bit positions) of the breakout components used by the
modelled systems; the registry assigns each component type a distinct
small index once at startup (spec 4.2).  The concrete numbering is
immaterial; only distinctness is used. -/

def Breakout.PositionBit : Nat := 0

def Breakout.VelocityBit : Nat := 1

def Breakout.ColliderBit : Nat := 2

def Breakout.DestroyedTagBit : Nat := 3

def Breakout.LaserTagBit : Nat := 4

def Breakout.PhysicsBodyBit : Nat := 5

/-- One iteration of the second loop of `DestroySystem`
(breakout_game.cpp:596-614): clear the entity's mask bit by bit with the
`ctz` loop through the mutable-mask access path.  The `PhysicsBody`
branch of the loop body only reads that component (guarded by its own
mask test) and destroys the external physics-engine body; it does not
change any ECS state, so it has no counterpart in the state
transformation. -/
def Breakout.destroyEnt (w : World) (ent : Nat) : World :=
  w.setMask ent (clearAllBits (w.maskOf ent))

/-- `DestroySystem` (breakout_game.cpp:583-615): snapshot all identities
up to `maxId` whose mask passes the `DestroyedTag` test into a list, then
clear each listed entity's mask bit by bit. -/
def Breakout.DestroySystem (w : World) : World :=
  let required := Mask.set 0 (Mask.bit Breakout.DestroyedTagBit)
  let toDestroy :=
    (List.range (w.maxId + 1)).filter
      (fun id => Mask.test (w.maskOf id) required)
  toDestroy.foldl Breakout.destroyEnt w

/-- The iteration mask of `MovementSystem` (breakout_game.cpp:195-197):
`Position` and `Velocity` only. -/
def Breakout.movementRequired : Nat :=
  Mask.set (Mask.set 0 (Mask.bit Breakout.PositionBit)) (Mask.bit Breakout.VelocityBit)

/-- One iteration of the `MovementSystem` loop
(breakout_game.cpp:201-224): skip identities failing the required mask or
carrying `DestroyedTag`; fetch `Position`, `Velocity` and — without any
guard — `Collider` (`none` models the fatal missing-component path of
`getComponent`); move the entity by writing the updated position through
the reference; mark off-screen lasers destroyed. -/
def Breakout.movementStep (w : World) (id : Nat) : Option World :=
  if Mask.test (w.maskOf id) Breakout.movementRequired = false then some w
  else if Mask.test (w.maskOf id) (Mask.bit Breakout.DestroyedTagBit) = true then some w
  else
    match w.getComponent Breakout.PositionBit id, w.getComponent Breakout.VelocityBit id,
        w.getComponent Breakout.ColliderBit id with
    | some pos, some vel, some col =>
      let pos2 : Payload := (pos.1 + vel.1, pos.2 + vel.2)
      let w2 := w.writeComponent Breakout.PositionBit id pos2
      if Mask.test (w2.maskOf id) (Mask.bit Breakout.LaserTagBit) = true ∧ pos2.2 + col.2 < 0 then
        some (w2.addComponent Breakout.DestroyedTagBit id (0, 0))
      else some w2
    | _, _, _ => none

/-- `MovementSystem` (breakout_game.cpp:194-225): the full scan
`for id in [0, maxId]`; a fatal component access anywhere aborts the
whole system (modelled by the `Option` bind). -/
def Breakout.MovementSystem (w : World) : Option World :=
  (List.range (w.maxId + 1)).foldl
    (fun acc id => acc.bind (fun wc => Breakout.movementStep wc id)) (some w)

/-! ### Facade operation lemmas -/

theorem set_ge_length {α : Type} (l : List α) (i : Nat) (v : α) (h : l.length ≤ i) :
    l.set i v = l := by
  induction l generalizing i with
  | nil => rfl
  | cons a l ih =>
    cases i with
    | zero => simp at h
    | succ n =>
      show a :: l.set n v = a :: l
      rw [ih n (Nat.le_of_succ_le_succ h)]

theorem World.maskOf_ge (w : World) (e : Nat) (h : w.masks.length ≤ e) :
    w.maskOf e = 0 := by
  rw [World.maskOf, List.getD, List.get?_eq_none.mpr h]
  rfl

theorem World.lt_of_maskOf_ne_zero (w : World) (e : Nat) (h : w.maskOf e ≠ 0) :
    e < w.masks.length := by
  by_contra hge
  exact h (w.maskOf_ge e (Nat.le_of_not_lt hge))

theorem World.hasComponent_eq_testBit (w : World) (t e : Nat) :
    w.hasComponent t e = (w.maskOf e).testBit t := by
  rw [World.hasComponent, Mask.test_bit]

theorem World.lt_of_hasComponent (w : World) (t e : Nat)
    (h : w.hasComponent t e = true) : e < w.masks.length := by
  apply w.lt_of_maskOf_ne_zero
  intro hz
  rw [World.hasComponent_eq_testBit, hz, Nat.zero_testBit] at h
  exact Bool.false_ne_true h

theorem World.storageAt_lt_of_ne_tagged (w : World) (t : Nat)
    (h : w.storageAt t ≠ Storage.tagged) : t < w.storages.length := by
  by_contra hge
  rw [World.storageAt, List.getD, List.get?_eq_none.mpr (Nat.le_of_not_lt hge)] at h
  exact h rfl

theorem World.get?_storages_of_ne_tagged (w : World) (t : Nat)
    (h : w.storageAt t ≠ Storage.tagged) :
    w.storages.get? t = some (w.storageAt t) := by
  rw [World.storageAt, List.getD]
  cases hg : w.storages.get? t with
  | none =>
    rw [World.storageAt, List.getD, hg] at h
    exact absurd rfl h
  | some s => rfl

theorem World.storageAt_set (w : World) (t t2 : Nat) (s : Storage) (ht : t < w.storages.length) :
    World.storageAt { w with storages := w.storages.set t s } t2 =
      if t2 = t then s else w.storageAt t2 := by
  rw [World.storageAt, World.storageAt, List.getD, List.getD]
  by_cases h : t2 = t
  · subst h
    rw [get?_set_self _ _ _ ht, if_pos rfl]
    rfl
  · rw [get?_set_ne_idx _ _ _ _ h, if_neg h]

theorem World.maskOf_set_mask (w : World) (e x m : Nat) :
    World.maskOf { w with masks := w.masks.set e m } x =
      if x = e ∧ e < w.masks.length then m else w.maskOf x := by
  rw [World.maskOf, World.maskOf]
  exact getD_set w.masks e x m 0

theorem World.addComponent_maskOf (w : World) (t e : Nat) (v : Payload) (x : Nat) :
    (w.addComponent t e v).maskOf x =
      if x = e ∧ e < w.masks.length then Mask.set (w.maskOf e) (Mask.bit t)
      else w.maskOf x := by
  rw [World.addComponent]
  by_cases he : e < w.masks.length
  · rw [if_pos he]
    show (w.masks.set e (Mask.set (w.maskOf e) (Mask.bit t))).getD x 0 = _
    rw [getD_set]
    rfl
  · rw [if_neg he]
    have hnc : ¬(x = e ∧ e < w.masks.length) := fun hc => he hc.2
    rw [if_neg hnc]

theorem World.hasComponent_addComponent (w : World) (t e : Nat) (v : Payload) (t2 x : Nat) :
    (w.addComponent t e v).hasComponent t2 x =
      if t2 = t ∧ x = e ∧ e < w.masks.length then true else w.hasComponent t2 x := by
  rw [World.hasComponent_eq_testBit, World.hasComponent_eq_testBit,
    World.addComponent_maskOf]
  by_cases hx : x = e ∧ e < w.masks.length
  · obtain ⟨hxe, hel⟩ := hx
    subst hxe
    rw [if_pos ⟨rfl, hel⟩]
    rw [Mask.set, Nat.testBit_or, Mask.testBit_bit]
    by_cases ht : t2 = t
    · rw [if_pos ⟨ht, rfl, hel⟩]
      simp [ht]
    · rw [if_neg (fun hc => ht hc.1)]
      simp [ht]
  · rw [if_neg hx, if_neg (fun hc => hx hc.2)]

theorem World.removeComponent_maskOf (w : World) (t e x : Nat) :
    (w.removeComponent t e).maskOf x =
      if x = e ∧ e < w.masks.length then Mask.clear (w.maskOf e) (Mask.bit t)
      else w.maskOf x := by
  rw [World.removeComponent]
  show (w.masks.set e (Mask.clear (w.maskOf e) (Mask.bit t))).getD x 0 = _
  rw [getD_set]
  rfl

theorem World.hasComponent_removeComponent (w : World) (t e t2 x : Nat) :
    (w.removeComponent t e).hasComponent t2 x =
      if t2 = t ∧ x = e then false else w.hasComponent t2 x := by
  rw [World.hasComponent_eq_testBit, World.hasComponent_eq_testBit,
    World.removeComponent_maskOf]
  by_cases hx : x = e ∧ e < w.masks.length
  · obtain ⟨hxe, hel⟩ := hx
    subst hxe
    rw [if_pos ⟨rfl, hel⟩]
    rw [Mask.testBit_clear, Mask.testBit_bit]
    by_cases ht : t2 = t
    · rw [if_pos ⟨ht, rfl⟩]
      simp [ht]
    · rw [if_neg (fun hc => ht hc.1)]
      simp [ht]
  · by_cases hxe : x = e
    · have hge : w.masks.length ≤ e := by
        by_contra hlt
        exact hx ⟨hxe, Nat.lt_of_not_le hlt⟩
      rw [if_neg hx]
      by_cases ht : t2 = t
      · rw [if_pos ⟨ht, hxe⟩]
        subst hxe
        rw [w.maskOf_ge x hge, Nat.zero_testBit]
      · rw [if_neg (fun hc => ht hc.1)]
    · rw [if_neg hx, if_neg (fun hc => hxe hc.2)]

theorem World.removeComponent_storageAt_ne (w : World) (t e t2 : Nat) (ht : t2 ≠ t) :
    (w.removeComponent t e).storageAt t2 = w.storageAt t2 := by
  rw [World.removeComponent]
  cases hst : w.storageAt t with
  | packed s =>
    have hlt : t < w.storages.length :=
      w.storageAt_lt_of_ne_tagged t (by rw [hst]; intro hc; cases hc)
    show (w.storages.set t (Storage.packed (s.remove e))).getD t2 Storage.tagged = _
    rw [getD_set, if_neg (fun hc => ht hc.1)]
    rfl
  | sparse s =>
    have hlt : t < w.storages.length :=
      w.storageAt_lt_of_ne_tagged t (by rw [hst]; intro hc; cases hc)
    show (w.storages.set t (Storage.sparse (s.remove e))).getD t2 Storage.tagged = _
    rw [getD_set, if_neg (fun hc => ht hc.1)]
    rfl
  | tagged => rfl

theorem World.addComponent_storageAt_ne (w : World) (t e : Nat) (v : Payload) (t2 : Nat)
    (ht : t2 ≠ t) :
    (w.addComponent t e v).storageAt t2 = w.storageAt t2 := by
  rw [World.addComponent]
  by_cases he : e < w.masks.length
  · rw [if_pos he]
    cases hst : w.storageAt t with
    | packed s =>
      show (w.storages.set t (Storage.packed (s.set e v))).getD t2 Storage.tagged = _
      rw [getD_set, if_neg (fun hc => ht hc.1)]
      rfl
    | sparse s =>
      show (w.storages.set t (Storage.sparse (s.set e v))).getD t2 Storage.tagged = _
      rw [getD_set, if_neg (fun hc => ht hc.1)]
      rfl
    | tagged => rfl
  · rw [if_neg he]

theorem World.writeComponent_maskOf (w : World) (t e : Nat) (v : Payload) (x : Nat) :
    (w.writeComponent t e v).maskOf x = w.maskOf x := rfl

theorem World.writeComponent_masks (w : World) (t e : Nat) (v : Payload) :
    (w.writeComponent t e v).masks = w.masks := rfl

theorem World.writeComponent_storageAt_ne (w : World) (t e : Nat) (v : Payload) (t2 : Nat)
    (ht : t2 ≠ t) :
    (w.writeComponent t e v).storageAt t2 = w.storageAt t2 := by
  rw [World.writeComponent]
  cases hst : w.storageAt t with
  | packed s =>
    show (w.storages.set t (Storage.packed (s.set e v))).getD t2 Storage.tagged = _
    rw [getD_set, if_neg (fun hc => ht hc.1)]
    rfl
  | sparse s =>
    show (w.storages.set t (Storage.sparse (s.set e v))).getD t2 Storage.tagged = _
    rw [getD_set, if_neg (fun hc => ht hc.1)]
    rfl
  | tagged => rfl

/-- Transfer of the storage-membership view along equal storage and equal
mask observations. -/
theorem World.storageHas_congr (w1 w2 : World) (t x : Nat)
    (hs : w1.storageAt t = w2.storageAt t)
    (hh : w1.hasComponent t x = w2.hasComponent t x) :
    w1.storageHas t x = w2.storageHas t x := by
  rw [World.storageHas, World.storageHas, hs]
  cases w2.storageAt t with
  | packed s => rfl
  | sparse s => rfl
  | tagged => exact hh

/-- Transfer of the payload view along equal storage and equal mask
observations. -/
theorem World.getComponent_congr (w1 w2 : World) (t x : Nat)
    (hs : w1.storageAt t = w2.storageAt t)
    (hh : w1.hasComponent t x = w2.hasComponent t x) :
    w1.getComponent t x = w2.getComponent t x := by
  rw [World.getComponent, World.getComponent, hs]
  cases w2.storageAt t with
  | packed s => rfl
  | sparse s => rfl
  | tagged => rw [hh]

theorem SparseStorage.hasEnt_set_sp (s : SparseStorage) (e x : Nat) (v : Payload) :
    (s.set e v).hasEnt x = if x = e then true else s.hasEnt x := by
  rw [SparseStorage.hasEnt, SparseStorage.set]
  show (getO (setGrow s.data e (some v)) x).isSome = _
  rw [getO_setGrow]
  by_cases hx : x = e
  · rw [if_pos hx, if_pos hx]
    rfl
  · rw [if_neg hx, if_neg hx]
    rfl

theorem SparseStorage.get_set (s : SparseStorage) (e x : Nat) (v : Payload) :
    (s.set e v).get x = if x = e then some v else s.get x := by
  rw [SparseStorage.get, SparseStorage.set]
  show getO (setGrow s.data e (some v)) x = _
  rw [getO_setGrow]
  by_cases hx : x = e
  · rw [if_pos hx, if_pos hx]
  · rw [if_neg hx, if_neg hx]
    rfl

theorem SparseStorage.hasEnt_remove (s : SparseStorage) (e x : Nat) :
    (s.remove e).hasEnt x = if x = e then false else s.hasEnt x := by
  rw [SparseStorage.hasEnt, SparseStorage.remove]
  show (getO (s.data.set e none) x).isSome = _
  rw [getO_set]
  by_cases hx : x = e
  · subst hx
    by_cases hl : x < s.data.length
    · rw [if_pos ⟨rfl, hl⟩, if_pos rfl]
      rfl
    · rw [if_neg (fun hc => hl hc.2), if_pos rfl,
        getO_ge_length s.data x (Nat.le_of_not_lt hl)]
      rfl
  · rw [if_neg (fun hc => hx hc.1), if_neg hx]
    rfl

theorem SparseStorage.get_remove_other_sp (s : SparseStorage) (e x : Nat) (hx : x ≠ e) :
    (s.remove e).get x = s.get x := by
  rw [SparseStorage.get, SparseStorage.remove]
  show getO (s.data.set e none) x = _
  rw [getO_set, if_neg (fun hc => hx hc.1)]
  rfl

/-- A packed storage's `get` succeeds exactly on the entities its `has`
reports (needs the representation invariant). -/
theorem PackedStorage.get_isSome (s : PackedStorage) (hwf : s.WF) (e : Nat) :
    (s.get e).isSome = s.hasEnt e := by
  rw [PackedStorage.get, PackedStorage.hasEnt]
  cases he : s.slotIdx e with
  | none => rfl
  | some i =>
    obtain ⟨v, hv⟩ := hwf.slotToEnt e i he
    rw [Option.some_bind, hv]
    rfl

theorem World.packedWF_of_SWF (w : World) (hwf : w.SWF) (t : Nat) (s : PackedStorage)
    (hst : w.storageAt t = Storage.packed s) : s.WF := by
  have hm : Storage.packed s ∈ w.storages := by
    apply List.get?_mem
    rw [w.get?_storages_of_ne_tagged t (by rw [hst]; intro hc; cases hc), hst]
  exact hwf _ hm

theorem World.addComponent_storageAt_packed (w : World) (t e : Nat) (v : Payload)
    (s : PackedStorage) (hst : w.storageAt t = Storage.packed s) (he : e < w.masks.length) :
    (w.addComponent t e v).storageAt t = Storage.packed (s.set e v) := by
  have hlt : t < w.storages.length :=
    w.storageAt_lt_of_ne_tagged t (by rw [hst]; intro hc; cases hc)
  rw [World.addComponent, if_pos he, hst]
  show (w.storages.set t (Storage.packed (s.set e v))).getD t Storage.tagged = _
  rw [getD_set, if_pos ⟨rfl, hlt⟩]

theorem World.addComponent_storageAt_sparse (w : World) (t e : Nat) (v : Payload)
    (s : SparseStorage) (hst : w.storageAt t = Storage.sparse s) (he : e < w.masks.length) :
    (w.addComponent t e v).storageAt t = Storage.sparse (s.set e v) := by
  have hlt : t < w.storages.length :=
    w.storageAt_lt_of_ne_tagged t (by rw [hst]; intro hc; cases hc)
  rw [World.addComponent, if_pos he, hst]
  show (w.storages.set t (Storage.sparse (s.set e v))).getD t Storage.tagged = _
  rw [getD_set, if_pos ⟨rfl, hlt⟩]

theorem World.addComponent_storageAt_tagged (w : World) (t e : Nat) (v : Payload)
    (hst : w.storageAt t = Storage.tagged) :
    (w.addComponent t e v).storageAt t = Storage.tagged := by
  rw [World.addComponent]
  by_cases he : e < w.masks.length
  · rw [if_pos he, hst]
    exact hst
  · rw [if_neg he]
    exact hst

theorem World.removeComponent_storageAt_packed (w : World) (t e : Nat)
    (s : PackedStorage) (hst : w.storageAt t = Storage.packed s) :
    (w.removeComponent t e).storageAt t = Storage.packed (s.remove e) := by
  have hlt : t < w.storages.length :=
    w.storageAt_lt_of_ne_tagged t (by rw [hst]; intro hc; cases hc)
  rw [World.removeComponent, hst]
  show (w.storages.set t (Storage.packed (s.remove e))).getD t Storage.tagged = _
  rw [getD_set, if_pos ⟨rfl, hlt⟩]

theorem World.removeComponent_storageAt_sparse (w : World) (t e : Nat)
    (s : SparseStorage) (hst : w.storageAt t = Storage.sparse s) :
    (w.removeComponent t e).storageAt t = Storage.sparse (s.remove e) := by
  have hlt : t < w.storages.length :=
    w.storageAt_lt_of_ne_tagged t (by rw [hst]; intro hc; cases hc)
  rw [World.removeComponent, hst]
  show (w.storages.set t (Storage.sparse (s.remove e))).getD t Storage.tagged = _
  rw [getD_set, if_pos ⟨rfl, hlt⟩]

theorem World.removeComponent_storageAt_tagged (w : World) (t e : Nat)
    (hst : w.storageAt t = Storage.tagged) :
    (w.removeComponent t e).storageAt t = Storage.tagged := by
  rw [World.removeComponent, hst]
  exact hst

theorem World.storageHas_addComponent_self (w : World) (t e : Nat) (v : Payload) (x : Nat)
    (he : e < w.masks.length) :
    (w.addComponent t e v).storageHas t x = if x = e then true else w.storageHas t x := by
  cases hst : w.storageAt t with
  | packed s =>
    simp only [World.storageHas, w.addComponent_storageAt_packed t e v s hst he, hst,
      PackedStorage.hasEnt_set]
  | sparse s =>
    simp only [World.storageHas, w.addComponent_storageAt_sparse t e v s hst he, hst,
      SparseStorage.hasEnt_set_sp]
  | tagged =>
    simp only [World.storageHas, w.addComponent_storageAt_tagged t e v hst, hst,
      World.hasComponent_addComponent]
    by_cases hx : x = e
    · simp [hx, he]
    · simp [hx]

theorem World.storageHas_removeComponent_self (w : World) (hwf : w.SWF) (t e x : Nat) :
    (w.removeComponent t e).storageHas t x = if x = e then false else w.storageHas t x := by
  cases hst : w.storageAt t with
  | packed s =>
    have hswf : s.WF := w.packedWF_of_SWF hwf t s hst
    simp only [World.storageHas, w.removeComponent_storageAt_packed t e s hst, hst]
    by_cases hx : x = e
    · subst hx
      rw [if_pos rfl, s.hasEnt_remove_self hswf x]
    · rw [if_neg hx, s.hasEnt_remove_other hswf e x hx]
  | sparse s =>
    simp only [World.storageHas, w.removeComponent_storageAt_sparse t e s hst, hst,
      SparseStorage.hasEnt_remove]
  | tagged =>
    simp only [World.storageHas, w.removeComponent_storageAt_tagged t e hst, hst,
      World.hasComponent_removeComponent]
    by_cases hx : x = e
    · simp [hx]
    · simp [hx]

/-- The Facade `addComponent` pairs the storage write with the mask-bit
update, so mask/storage coherence survives it. -/
theorem World.coherent_addComponent (w : World) (hC : w.Coherent) (t e : Nat) (v : Payload) :
    (w.addComponent t e v).Coherent := by
  intro t2 x
  rw [World.coherentAt]
  by_cases he : e < w.masks.length
  · by_cases ht2 : t2 = t
    · subst ht2
      rw [World.hasComponent_addComponent, w.storageHas_addComponent_self t2 e v x he]
      by_cases hx : x = e
      · rw [if_pos ⟨rfl, hx, he⟩, if_pos hx]
      · rw [if_neg (fun hc => hx hc.2.1), if_neg hx]
        exact hC t2 x
    · rw [World.hasComponent_addComponent, if_neg (fun hc => ht2 hc.1)]
      rw [World.storageHas_congr (w.addComponent t e v) w t2 x
        (w.addComponent_storageAt_ne t e v t2 ht2)
        (by rw [World.hasComponent_addComponent, if_neg (fun hc => ht2 hc.1)])]
      exact hC t2 x
  · have hid : w.addComponent t e v = w := by rw [World.addComponent, if_neg he]
    rw [hid]
    exact hC t2 x

/-- The Facade `removeComponent` pairs the storage erase with the
mask-bit clear, so mask/storage coherence survives it. -/
theorem World.coherent_removeComponent (w : World) (hwf : w.SWF) (hC : w.Coherent)
    (t e : Nat) : (w.removeComponent t e).Coherent := by
  intro t2 x
  rw [World.coherentAt]
  by_cases ht2 : t2 = t
  · subst ht2
    rw [World.hasComponent_removeComponent, w.storageHas_removeComponent_self hwf t2 e x]
    by_cases hx : x = e
    · rw [if_pos ⟨rfl, hx⟩, if_pos hx]
    · rw [if_neg (fun hc => hx hc.2), if_neg hx]
      exact hC t2 x
  · rw [World.hasComponent_removeComponent, if_neg (fun hc => ht2 hc.1)]
    rw [World.storageHas_congr (w.removeComponent t e) w t2 x
      (w.removeComponent_storageAt_ne t e t2 ht2)
      (by rw [World.hasComponent_removeComponent, if_neg (fun hc => ht2 hc.1)])]
    exact hC t2 x

theorem findFreeId_some (l : List Nat) (i : Nat) (h : findFreeId l = some i) :
    l.getD i 0 = 0 := by
  induction l generalizing i with
  | nil => cases h
  | cons m rest ih =>
    rw [findFreeId] at h
    by_cases hm : m == 0
    · rw [if_pos hm] at h
      cases h
      show m = 0
      simpa using hm
    · rw [if_neg hm] at h
      cases hf : findFreeId rest with
      | none => rw [hf] at h; cases h
      | some j =>
        rw [hf] at h
        have h2 : some (j + 1) = some i := h
        cases h2
        show rest.getD j 0 = 0
        exact ih j hf

theorem findFreeId_none (l : List Nat) (h : ∀ m ∈ l, m ≠ 0) : findFreeId l = none := by
  induction l with
  | nil => rfl
  | cons m rest ih =>
    rw [findFreeId]
    have hm : ¬(m == 0) = true := by
      simp only [beq_iff_eq]
      exact h m (List.mem_cons_self m rest)
    rw [if_neg hm, ih (fun x hx => h x (List.mem_cons_of_mem m hx))]
    rfl

theorem World.createEntity_maskOf (w w2 : World) (id : Nat)
    (h : w.createEntity = some (w2, id)) :
    (∀ x, w2.maskOf x = w.maskOf x) ∧ w.maskOf id = 0 ∧ w2.storages = w.storages := by
  rw [World.createEntity] at h
  cases hf : findFreeId w.masks with
  | some i =>
    rw [hf] at h
    cases h
    exact ⟨fun x => rfl, findFreeId_some w.masks _ hf, rfl⟩
  | none =>
    rw [hf] at h
    have happ : ∀ x, World.maskOf { w with masks := w.masks ++ [0] } x = w.maskOf x := by
      intro x
      show (w.masks ++ [0]).getD x 0 = w.masks.getD x 0
      rw [getD_append_elem]
      by_cases hx : x = w.masks.length
      · rw [if_pos hx, hx, List.getD, List.get?_eq_none.mpr (Nat.le_refl _)]
        rfl
      · rw [if_neg hx]
    by_cases hcap : w.masks.length < w.capacity
    · rw [if_pos hcap] at h
      cases h
      exact ⟨happ, w.maskOf_ge _ (Nat.le_refl _), rfl⟩
    · rw [if_neg hcap] at h
      by_cases hdyn : w.dynamicResize = true
      · rw [if_pos hdyn] at h
        cases h
        exact ⟨happ, w.maskOf_ge _ (Nat.le_refl _), rfl⟩
      · rw [if_neg hdyn] at h
        cases h

/-- `createEntity` touches no storage and gives the fresh identity an
all-zero mask, so mask/storage coherence survives it. -/
theorem World.coherent_createEntity (w : World) (hC : w.Coherent) (w2 : World) (id : Nat)
    (h : w.createEntity = some (w2, id)) : w2.Coherent := by
  obtain ⟨hm, _, hs⟩ := w.createEntity_maskOf w2 id h
  intro t x
  rw [World.coherentAt]
  have hsa : w2.storageAt t = w.storageAt t := by
    rw [World.storageAt, World.storageAt, hs]
  have hh : w2.hasComponent t x = w.hasComponent t x := by
    rw [World.hasComponent, World.hasComponent, hm x]
  rw [hh, World.storageHas_congr w2 w t x hsa hh]
  exact hC t x

/-! ### Claim theorems -/

/-- C2: `Mask::test(required)` on a mask M returns true iff every bit set
in `required` is also set in M (required is a subset of M), and a full
scan over identities 0..maxId keeping id exactly when
`mask(id).test(required)` holds selects exactly the identities whose
component set is a superset of the components encoded in `required`. -/
theorem C2_mask_test_query (M R : Nat) (w : World) (e : Nat) :
    (Mask.test M R = true ↔ ∀ i, R.testBit i = true → M.testBit i = true) ∧
    (e ∈ w.queryScan R ↔
      e ≤ w.maxId ∧ ∀ i, R.testBit i = true → (w.maskOf e).testBit i = true) := by
  constructor
  · exact Mask.test_iff M R
  · rw [World.queryScan, List.mem_filter, List.mem_range, Nat.lt_succ_iff, Mask.test_iff]

/-- C3: removing entity e's component from a packed storage by
swap-with-last deletes exactly e's association: every other entity that
held the component still has its original payload retrievable by its own
identity — nothing is dropped, duplicated, or re-associated. -/
theorem C3_packed_remove_preserves_others (s : PackedStorage) (hwf : s.WF) (e : Nat)
    (hhas : s.hasEnt e = true) :
    (s.remove e).hasEnt e = false ∧
    ∀ x, x ≠ e → (s.remove e).get x = s.get x :=
  ⟨s.hasEnt_remove_self hwf e, fun x hx => s.get_remove_other hwf e x hx⟩

/-- Concrete packed storage holding payloads for entities 0, 1, 2. -/
def csPacked : PackedStorage :=
  ⟨[(0, (5, 0)), (1, (7, 0)), (2, (9, 0))], [some 0, some 1, some 2]⟩

theorem C3_witness :
    (csPacked.remove 1).hasEnt 1 = false ∧
    (csPacked.remove 1).get 0 = csPacked.get 0 ∧
    (csPacked.remove 1).get 2 = csPacked.get 2 := by
  have h := C3_packed_remove_preserves_others csPacked
    (csPacked.wf_of_wfCheck (by decide)) 1 (by decide)
  exact ⟨h.1, h.2 0 (by decide), h.2 2 (by decide)⟩

/-- C4: `createEntity` returns an identity distinct from every
currently-live entity (live means mask nonzero; identities are plain
integers, so two simultaneously-live entities are distinct indices of the
mask table), the returned identity's initial mask is all-zero, and no
other identity's mask is disturbed — reuse of a retired identity can
never collide with a still-live one. -/
theorem C4_create_fresh_identity (w w2 : World) (id : Nat)
    (h : w.createEntity = some (w2, id)) :
    (∀ e, w.maskOf e ≠ 0 → e ≠ id) ∧
    w2.maskOf id = 0 ∧
    (∀ e, e ≠ id → w2.maskOf e = w.maskOf e) := by
  obtain ⟨hm, hz, _⟩ := w.createEntity_maskOf w2 id h
  refine ⟨?_, ?_, ?_⟩
  · intro e he hc
    subst hc
    exact he hz
  · rw [hm id, hz]
  · intro e _
    exact hm e

/-- Concrete world with live entities 0 and 2 and the retired identity 1. -/
def cwCreate : World := ⟨[5, 0, 7], [], 3, false⟩

theorem C4_witness :
    cwCreate.maskOf 1 = 0 ∧ (∀ e, cwCreate.maskOf e ≠ 0 → e ≠ 1) :=
  ⟨(C4_create_fresh_identity cwCreate cwCreate 1 (by decide)).2.1,
   (C4_create_fresh_identity cwCreate cwCreate 1 (by decide)).1⟩

/-- C8: with dynamic growth enabled (as this repository configures via
`DynamicResize = true` in bagel_cfg.h) entity creation never fails and
exhausting the static capacity expands it by amortized growth; with
dynamic growth disabled and all N capacity slots holding live entities,
the next `createEntity` fails deterministically instead of aliasing a
live identity. -/
theorem C8_capacity_boundary (w : World) :
    (w.dynamicResize = true → (w.createEntity).isSome = true) ∧
    (w.dynamicResize = true → w.capacity ≤ w.masks.length → findFreeId w.masks = none →
      ∃ w2 id, w.createEntity = some (w2, id) ∧ w.capacity < w2.capacity) ∧
    (w.dynamicResize = false → w.masks.length = w.capacity →
      (∀ m ∈ w.masks, m ≠ 0) → w.createEntity = none) ∧
    Params.DynamicResize = true := by
  refine ⟨?_, ?_, ?_, rfl⟩
  · intro hdyn
    rw [World.createEntity]
    cases findFreeId w.masks with
    | some i => rfl
    | none =>
      by_cases hcap : w.masks.length < w.capacity
      · rw [if_pos hcap]
        rfl
      · rw [if_neg hcap, if_pos hdyn]
        rfl
  · intro hdyn hcap hfree
    rw [World.createEntity, hfree, if_neg (Nat.not_lt.mpr hcap), if_pos hdyn]
    refine ⟨_, _, rfl, ?_⟩
    show w.capacity < max (2 * w.capacity) (w.masks.length + 1)
    exact Nat.lt_of_lt_of_le (Nat.lt_succ_of_le hcap) (Nat.le_max_right _ _)
  · intro hdyn hlen hlive
    rw [World.createEntity, findFreeId_none w.masks hlive,
      if_neg (by rw [hlen]; exact Nat.lt_irrefl _), hdyn]
    rfl

theorem C8_witness :
    ((World.mk [] [] 0 true).createEntity).isSome = true ∧
    (World.mk [1] [] 1 false).createEntity = none :=
  ⟨(C8_capacity_boundary (World.mk [] [] 0 true)).1 rfl,
   (C8_capacity_boundary (World.mk [1] [] 1 false)).2.2.1 rfl rfl (by decide)⟩

theorem Mask.clear_bit_of_not_test (m t : Nat) (h : m.testBit t = false) :
    Mask.clear m (Mask.bit t) = m := by
  apply Nat.eq_of_testBit_eq
  intro i
  rw [Mask.testBit_clear, Mask.testBit_bit]
  by_cases hi : i = t
  · subst hi
    simp [h]
  · simp [hi]

theorem PackedStorage.remove_of_not_has (s : PackedStorage) (e : Nat)
    (h : s.hasEnt e = false) : s.remove e = s := by
  rw [PackedStorage.remove]
  cases hs : s.slotIdx e with
  | none => rfl
  | some i =>
    rw [PackedStorage.hasEnt, hs] at h
    cases h

theorem SparseStorage.remove_of_not_has_sp (s : SparseStorage) (e : Nat)
    (h : s.hasEnt e = false) : s.remove e = s := by
  rw [SparseStorage.remove]
  have hn : getO s.data e = none := by
    cases hg : getO s.data e with
    | none => rfl
    | some v =>
      rw [SparseStorage.hasEnt, hg] at h
      cases h
  have hd : s.data.set e none = s.data := by
    cases hg : s.data.get? e with
    | none =>
      exact set_ge_length s.data e none (List.get?_eq_none.mp hg)
    | some o =>
      have ho : o = none := by
        rw [getO, List.getD, hg] at hn
        exact hn
      rw [← ho] at hn ⊢
      exact set_of_get? s.data e o hg
  rw [hd]

theorem World.storageHas_eq_getComponent_isSome (w : World) (hwf : w.SWF) (t e : Nat) :
    (w.getComponent t e).isSome = w.storageHas t e := by
  rw [World.getComponent, World.storageHas]
  cases hst : w.storageAt t with
  | packed s => exact s.get_isSome (w.packedWF_of_SWF hwf t s hst) e
  | sparse s => rfl
  | tagged =>
    cases hh : w.hasComponent t e with
    | false => rfl
    | true => rfl

/-- C6: getComponent fails fatally exactly when the entity does not have
the component (its mask bit is clear); when it does, it returns the
stored payload without failing.  The mask-bit phrasing needs the
mask/storage coherence invariant and the storage representation
invariant. -/
theorem C6_get_fatal_iff_absent (w : World) (hwf : w.SWF) (hC : w.Coherent) (t e : Nat) :
    (w.getComponent t e = none ↔ w.hasComponent t e = false) ∧
    (w.hasComponent t e = true → ∃ v, w.getComponent t e = some v) := by
  have hiso : (w.getComponent t e).isSome = w.hasComponent t e := by
    rw [w.storageHas_eq_getComponent_isSome hwf t e]
    exact (hC t e).symm
  constructor
  · constructor
    · intro hn
      rw [← hiso, hn]
      rfl
    · intro hf
      cases hg : w.getComponent t e with
      | none => rfl
      | some v =>
        rw [hg] at hiso
        rw [hf] at hiso
        cases hiso
  · intro ht
    rw [← hiso] at ht
    exact Option.isSome_iff_exists.mp ht

/-- Concrete world whose only registered component behaves as a tag
storage; entity 0 carries component 0. -/
def cwTag : World := ⟨[Mask.bit 0], [], 1, false⟩

theorem C6_witness :
    (∃ v, cwTag.getComponent 0 0 = some v) ∧ cwTag.getComponent 1 0 = none :=
  ⟨(C6_get_fatal_iff_absent cwTag (fun s hs => absurd hs (List.not_mem_nil s))
      (fun t e => rfl) 0 0).2 (by decide),
   (C6_get_fatal_iff_absent cwTag (fun s hs => absurd hs (List.not_mem_nil s))
      (fun t e => rfl) 1 0).1.mpr (by decide)⟩

/-- C7: removeComponent never fails: when the entity does not have the
component it is a perfect no-op (the whole world — mask table and every
storage — is unchanged), and when it does, it clears exactly that
component's mask bit and storage slot, leaving every other (component,
entity) membership and payload untouched. -/
theorem C7_remove_noop_safe (w : World) (hwf : w.SWF) (hC : w.Coherent) (t e : Nat) :
    (w.hasComponent t e = false → w.removeComponent t e = w) ∧
    (w.hasComponent t e = true →
      (w.removeComponent t e).hasComponent t e = false ∧
      (w.removeComponent t e).storageHas t e = false ∧
      (∀ t2 x, ¬(t2 = t ∧ x = e) →
        (w.removeComponent t e).hasComponent t2 x = w.hasComponent t2 x) ∧
      (∀ t2 x, ¬(t2 = t ∧ x = e) →
        (w.removeComponent t e).getComponent t2 x = w.getComponent t2 x)) := by
  constructor
  · intro hh
    have htb : (w.maskOf e).testBit t = false := by
      rw [← World.hasComponent_eq_testBit]
      exact hh
    have hmasks : w.masks.set e (Mask.clear (w.maskOf e) (Mask.bit t)) = w.masks := by
      rw [Mask.clear_bit_of_not_test _ _ htb]
      exact set_getD_eq_self w.masks e 0
    have hsh : w.storageHas t e = false := by
      rw [← hC t e]
      exact hh
    rw [World.removeComponent]
    cases hst : w.storageAt t with
    | packed s =>
      have hs : s.hasEnt e = false := by
        simp only [World.storageHas, hst] at hsh
        exact hsh
      rw [hmasks]
      show World.mk w.masks (w.storages.set t (Storage.packed (s.remove e)))
        w.capacity w.dynamicResize = w
      rw [s.remove_of_not_has e hs,
        set_of_get? _ _ _
          (by rw [w.get?_storages_of_ne_tagged t (by rw [hst]; intro hc; cases hc), hst])]
    | sparse s =>
      have hs : s.hasEnt e = false := by
        simp only [World.storageHas, hst] at hsh
        exact hsh
      rw [hmasks]
      show World.mk w.masks (w.storages.set t (Storage.sparse (s.remove e)))
        w.capacity w.dynamicResize = w
      rw [s.remove_of_not_has_sp e hs,
        set_of_get? _ _ _
          (by rw [w.get?_storages_of_ne_tagged t (by rw [hst]; intro hc; cases hc), hst])]
    | tagged =>
      rw [hmasks]
  · intro hh
    refine ⟨?_, ?_, ?_, ?_⟩
    · rw [World.hasComponent_removeComponent, if_pos ⟨rfl, rfl⟩]
    · rw [w.storageHas_removeComponent_self hwf t e e, if_pos rfl]
    · intro t2 x hne
      rw [World.hasComponent_removeComponent, if_neg hne]
    · intro t2 x hne
      by_cases ht2 : t2 = t
      · subst ht2
        have hx : x ≠ e := fun hc => hne ⟨rfl, hc⟩
        cases hst : w.storageAt t2 with
        | packed s =>
          have hswf : s.WF := w.packedWF_of_SWF hwf t2 s hst
          simp only [World.getComponent, w.removeComponent_storageAt_packed t2 e s hst, hst]
          exact s.get_remove_other hswf e x hx
        | sparse s =>
          simp only [World.getComponent, w.removeComponent_storageAt_sparse t2 e s hst, hst]
          exact s.get_remove_other_sp e x hx
        | tagged =>
          simp only [World.getComponent, w.removeComponent_storageAt_tagged t2 e hst, hst,
            World.hasComponent_removeComponent]
          simp [hx]
      · exact World.getComponent_congr (w.removeComponent t e) w t2 x
          (w.removeComponent_storageAt_ne t e t2 ht2)
          (by rw [World.hasComponent_removeComponent, if_neg (fun hc => ht2 hc.1)])

theorem C7_witness :
    (cwTag.removeComponent 0 0).hasComponent 0 0 = false ∧
    cwTag.removeComponent 1 0 = cwTag :=
  ⟨((C7_remove_noop_safe cwTag (fun s hs => absurd hs (List.not_mem_nil s))
      (fun t e => rfl) 0 0).2 (by decide)).1,
   (C7_remove_noop_safe cwTag (fun s hs => absurd hs (List.not_mem_nil s))
      (fun t e => rfl) 1 0).1 (by decide)⟩

/-! ### DestroySystem lemmas -/

theorem Mask.set_zero (b : Nat) : Mask.set 0 b = b := Nat.zero_or b

theorem Breakout.destroyEnt_maskOf (w : World) (a x : Nat) :
    (Breakout.destroyEnt w a).maskOf x =
      if x = a ∧ a < w.masks.length then 0 else w.maskOf x := by
  rw [Breakout.destroyEnt, clearAllBits_eq_zero]
  show (w.masks.set a 0).getD x 0 = _
  rw [getD_set]
  rfl

theorem Breakout.destroyFold_storages (l : List Nat) (w : World) :
    (l.foldl Breakout.destroyEnt w).storages = w.storages := by
  induction l generalizing w with
  | nil => rfl
  | cons a l ih =>
    rw [List.foldl_cons, ih]
    rfl

theorem Breakout.destroyFold_maskOf (l : List Nat) (w : World) (x : Nat) :
    (l.foldl Breakout.destroyEnt w).maskOf x =
      if x ∈ l ∧ x < w.masks.length then 0 else w.maskOf x := by
  induction l generalizing w with
  | nil => simp
  | cons a l ih =>
    rw [List.foldl_cons, ih]
    have hlen : (Breakout.destroyEnt w a).masks.length = w.masks.length := by
      show (w.masks.set a (clearAllBits (w.maskOf a))).length = w.masks.length
      exact List.length_set w.masks a _
    rw [hlen, Breakout.destroyEnt_maskOf]
    by_cases hmem : x ∈ a :: l ∧ x < w.masks.length
    · rw [if_pos hmem]
      obtain ⟨hm, hlt⟩ := hmem
      cases List.mem_cons.mp hm with
      | inl hxa =>
        by_cases hxl : x ∈ l
        · rw [if_pos ⟨hxl, hlt⟩]
        · rw [if_neg (fun hc => hxl hc.1), if_pos ⟨hxa, by rw [← hxa]; exact hlt⟩]
      | inr hxl => rw [if_pos ⟨hxl, hlt⟩]
    · have h1 : ¬(x ∈ l ∧ x < w.masks.length) :=
        fun hc => hmem ⟨List.mem_cons_of_mem a hc.1, hc.2⟩
      have h2 : ¬(x = a ∧ a < w.masks.length) := by
        intro hc
        exact hmem ⟨by rw [hc.1]; exact List.mem_cons_self a l, by rw [hc.1]; exact hc.2⟩
      rw [if_neg hmem, if_neg h1, if_neg h2]

theorem Breakout.DestroySystem_storages (w : World) :
    (Breakout.DestroySystem w).storages = w.storages := by
  rw [Breakout.DestroySystem]
  exact Breakout.destroyFold_storages _ w

theorem Breakout.DestroySystem_maskOf (w : World) (x : Nat) :
    (Breakout.DestroySystem w).maskOf x =
      if x ≤ w.maxId ∧ Mask.test (w.maskOf x) (Mask.bit Breakout.DestroyedTagBit) = true
      then 0 else w.maskOf x := by
  rw [Breakout.DestroySystem]
  rw [Breakout.destroyFold_maskOf]
  have hmem : (x ∈ (List.range (w.maxId + 1)).filter
      (fun id => Mask.test (w.maskOf id) (Mask.set 0 (Mask.bit Breakout.DestroyedTagBit)))) ↔
      (x ≤ w.maxId ∧ Mask.test (w.maskOf x) (Mask.bit Breakout.DestroyedTagBit) = true) := by
    rw [List.mem_filter, List.mem_range, Nat.lt_succ_iff, Mask.set_zero]
  by_cases hc : x ≤ w.maxId ∧ Mask.test (w.maskOf x) (Mask.bit Breakout.DestroyedTagBit) = true
  · have hlt : x < w.masks.length :=
      w.lt_of_maskOf_ne_zero x (Mask.test_ne_zero (Mask.bit_ne_zero _) hc.2)
    rw [if_pos ⟨hmem.mpr hc, hlt⟩, if_pos hc]
  · have hnm : ¬(x ∈ (List.range (w.maxId + 1)).filter
        (fun id => Mask.test (w.maskOf id) (Mask.set 0 (Mask.bit Breakout.DestroyedTagBit))) ∧
        x < w.masks.length) :=
      fun hcc => hc (hmem.mp hcc.1)
    rw [if_neg hnm, if_neg hc]

/-- C9: after `DestroySystem` returns, every entity up to `maxId` whose
mask carried the `DestroyedTag` bit when the system started has an
all-zero mask (eligible for reuse), and every other entity's mask is
unchanged — the doomed set is snapshotted into a list before any mask is
mutated, so clearing one entity cannot change which others are destroyed
in the same pass. -/
theorem C9_destroy_system (w : World) (e : Nat) :
    (e ≤ w.maxId →
      Mask.test (w.maskOf e) (Mask.bit Breakout.DestroyedTagBit) = true →
      (Breakout.DestroySystem w).maskOf e = 0) ∧
    (Mask.test (w.maskOf e) (Mask.bit Breakout.DestroyedTagBit) = false →
      (Breakout.DestroySystem w).maskOf e = w.maskOf e) := by
  constructor
  · intro hle ht
    rw [Breakout.DestroySystem_maskOf, if_pos ⟨hle, ht⟩]
  · intro ht
    rw [Breakout.DestroySystem_maskOf,
      if_neg (fun hc => by rw [ht] at hc; exact Bool.false_ne_true hc.2)]

/-- Concrete world: entity 0 carries a packed `Position` payload and the
`DestroyedTag` bit. -/
def cwDestroy : World :=
  ⟨[Mask.set (Mask.bit Breakout.PositionBit) (Mask.bit Breakout.DestroyedTagBit)],
   [Storage.packed ⟨[(0, (1, 2))], [some 0]⟩], 1, false⟩

theorem C9_witness : (Breakout.DestroySystem cwDestroy).maskOf 0 = 0 :=
  (C9_destroy_system cwDestroy 0).1 (by decide) (by decide)

/-- C1 (as stated) is refuted by the manual bit-clear destruction path:
before `DestroySystem`, entity 0's `Position` mask bit and its packed
storage agree; after it, the mask bit is clear while the storage still
reports (and stores) entity 0's payload — the membership equivalence is
broken at an observable point between Facade calls. -/
theorem C1_counterexample :
    (cwDestroy.hasComponent Breakout.PositionBit 0 =
      cwDestroy.storageHas Breakout.PositionBit 0) ∧
    ¬((Breakout.DestroySystem cwDestroy).hasComponent Breakout.PositionBit 0 =
      (Breakout.DestroySystem cwDestroy).storageHas Breakout.PositionBit 0) := by
  constructor
  · decide
  · intro hcontra
    have h1 : (Breakout.DestroySystem cwDestroy).maskOf 0 = 0 := by
      rw [Breakout.DestroySystem_maskOf, if_pos ⟨by decide, by decide⟩]
    have h2 : (Breakout.DestroySystem cwDestroy).storageAt Breakout.PositionBit =
        cwDestroy.storageAt Breakout.PositionBit := by
      rw [World.storageAt, World.storageAt, Breakout.DestroySystem_storages]
    have h3 : (Breakout.DestroySystem cwDestroy).storageHas Breakout.PositionBit 0 = true := by
      simp only [World.storageHas, h2]
      decide
    rw [World.hasComponent_eq_testBit, h1, Nat.zero_testBit, h3] at hcontra
    exact Bool.false_ne_true hcontra

/-- C1 (amended): mask/storage coherence — `hasComponent<T>(E)` iff T's
storage `has(E)` — is an invariant of `addComponent`, `removeComponent`
and `createEntity`; the manual bit-clear destruction path preserves only
the direction "mask bit set implies storage has" (it clears mask bits
without touching any storage, so after a destroy the converse can fail
for non-tag components). -/
theorem C1_facade_preserves_coherence (w : World) (hwf : w.SWF) (hC : w.Coherent) :
    (∀ t e v, (w.addComponent t e v).Coherent) ∧
    (∀ t e, (w.removeComponent t e).Coherent) ∧
    (∀ w2 id, w.createEntity = some (w2, id) → w2.Coherent) ∧
    (∀ t e, (Breakout.DestroySystem w).hasComponent t e = true →
      (Breakout.DestroySystem w).storageHas t e = true) := by
  refine ⟨fun t e v => w.coherent_addComponent hC t e v,
    fun t e => w.coherent_removeComponent hwf hC t e,
    fun w2 id h => w.coherent_createEntity hC w2 id h, ?_⟩
  intro t e hhas
  have hsa : (Breakout.DestroySystem w).storageAt t = w.storageAt t := by
    rw [World.storageAt, World.storageAt, Breakout.DestroySystem_storages]
  have hmm : (Breakout.DestroySystem w).maskOf e = w.maskOf e := by
    rw [Breakout.DestroySystem_maskOf]
    by_cases hc : e ≤ w.maxId ∧ Mask.test (w.maskOf e) (Mask.bit Breakout.DestroyedTagBit) = true
    · rw [if_pos hc]
      rw [World.hasComponent_eq_testBit, Breakout.DestroySystem_maskOf, if_pos hc,
        Nat.zero_testBit] at hhas
      cases hhas
    · rw [if_neg hc]
  have hh : (Breakout.DestroySystem w).hasComponent t e = w.hasComponent t e := by
    rw [World.hasComponent, World.hasComponent, hmm]
  rw [World.storageHas_congr (Breakout.DestroySystem w) w t e hsa hh, ← hC t e, ← hh]
  exact hhas

theorem C1_witness :
    (cwTag.addComponent 0 0 (1, 1)).hasComponent 2 5 =
      (cwTag.addComponent 0 0 (1, 1)).storageHas 2 5 :=
  (C1_facade_preserves_coherence cwTag (fun s hs => absurd hs (List.not_mem_nil s))
    (fun t e => rfl)).1 0 0 (1, 1) 2 5

/-! ### Round-trip lemmas -/

theorem Mask.clear_set_bit (m t : Nat) (h : m.testBit t = false) :
    Mask.clear (Mask.set m (Mask.bit t)) (Mask.bit t) = m := by
  apply Nat.eq_of_testBit_eq
  intro i
  rw [Mask.testBit_clear, Mask.testBit_set, Mask.testBit_bit]
  by_cases hi : i = t
  · subst hi
    simp [h]
  · simp [hi]

theorem PackedStorage.set_of_not_has (s : PackedStorage) (e : Nat) (v : Payload)
    (h : s.hasEnt e = false) :
    s.set e v = ⟨s.dense ++ [(e, v)], setGrow s.slotOf e (some s.dense.length)⟩ := by
  rw [PackedStorage.set]
  cases hs : s.slotIdx e with
  | none => rfl
  | some i =>
    rw [PackedStorage.hasEnt, hs] at h
    cases h

theorem PackedStorage.remove_eq_of_slot_last (s2 : PackedStorage) (e : Nat) (lp : Nat × Payload)
    (hslot : s2.slotIdx e = some (s2.dense.length - 1))
    (hlast : s2.dense.getLast? = some lp) :
    s2.remove e = ⟨(s2.dense.set (s2.dense.length - 1) lp).dropLast,
                   setGrow (setGrow s2.slotOf lp.1 (some (s2.dense.length - 1))) e none⟩ := by
  rw [PackedStorage.remove, hslot, hlast]

theorem PackedStorage.roundtrip_get (s : PackedStorage) (e : Nat) (v v2 : Payload)
    (h : s.hasEnt e = false) (x : Nat) :
    (((s.set e v).remove e).set e v2).get x = (s.set e v2).get x := by
  have h1 : s.set e v =
      ⟨s.dense ++ [(e, v)], setGrow s.slotOf e (some s.dense.length)⟩ :=
    s.set_of_not_has e v h
  have hlen : (s.dense ++ [(e, v)]).length - 1 = s.dense.length := by simp
  have h2 : (s.set e v).remove e = PackedStorage.mk s.dense
      (setGrow (setGrow (setGrow s.slotOf e (some s.dense.length)) e
        (some s.dense.length)) e none) := by
    rw [h1]
    have hslot : PackedStorage.slotIdx
        ⟨s.dense ++ [(e, v)], setGrow s.slotOf e (some s.dense.length)⟩ e =
        some ((s.dense ++ [(e, v)]).length - 1) := by
      rw [hlen]
      show getO (setGrow s.slotOf e (some s.dense.length)) e = some s.dense.length
      rw [getO_setGrow, if_pos rfl]
    have hres := PackedStorage.remove_eq_of_slot_last _ e (e, v) hslot
      (List.getLast?_concat _)
    rw [hres, hlen, set_concat_length, List.dropLast_concat]
  have h3 : ((s.set e v).remove e).hasEnt e = false := by
    rw [h2]
    show (getO (setGrow (setGrow (setGrow s.slotOf e (some s.dense.length)) e
      (some s.dense.length)) e none) e).isSome = false
    rw [getO_setGrow, if_pos rfl]
    rfl
  have h4 : ((s.set e v).remove e).set e v2 = PackedStorage.mk (s.dense ++ [(e, v2)])
      (setGrow (setGrow (setGrow (setGrow s.slotOf e (some s.dense.length)) e
        (some s.dense.length)) e none) e (some s.dense.length)) := by
    have hx := ((s.set e v).remove e).set_of_not_has e v2 h3
    rw [h2] at hx
    rw [h2, hx]
  rw [h4, s.set_of_not_has e v2 h]
  show (getO (setGrow (setGrow (setGrow (setGrow s.slotOf e (some s.dense.length)) e
      (some s.dense.length)) e none) e (some s.dense.length)) x).bind
      (fun i => ((s.dense ++ [(e, v2)]).get? i).map Prod.snd) =
    (getO (setGrow s.slotOf e (some s.dense.length)) x).bind
      (fun i => ((s.dense ++ [(e, v2)]).get? i).map Prod.snd)
  by_cases hx : x = e <;> simp [getO_setGrow, hx]

theorem SparseStorage.roundtrip_get_sp (s : SparseStorage) (e : Nat) (v v2 : Payload) (x : Nat) :
    (((s.set e v).remove e).set e v2).get x = (s.set e v2).get x := by
  rw [SparseStorage.get_set, SparseStorage.get_set]
  by_cases hx : x = e
  · rw [if_pos hx, if_pos hx]
  · rw [if_neg hx, if_neg hx, SparseStorage.get_remove_other_sp _ _ _ hx, SparseStorage.get_set,
      if_neg hx]

theorem World.addComponent_masks (w : World) (t e : Nat) (v : Payload)
    (he : e < w.masks.length) :
    (w.addComponent t e v).masks = w.masks.set e (Mask.set (w.maskOf e) (Mask.bit t)) := by
  rw [World.addComponent, if_pos he]

/-- C5: add then remove leaves the membership false, and a subsequent add
of a new payload is observationally identical (same high-water mark, same
mask for every identity — hence the same membership and query results —
and the same retrievable payload everywhere) to adding to an entity that
never held the component.  (Exact state equality does not hold for packed
storage — the grown index table differs — which is why the claim is about
observations.) -/
theorem C5_add_remove_roundtrip (w : World) (t e : Nat) (v v2 : Payload)
    (he : e < w.masks.length)
    (hm : w.hasComponent t e = false)
    (hs : w.storageHas t e = false) :
    ((w.addComponent t e v).removeComponent t e).hasComponent t e = false ∧
    World.ObsEq (((w.addComponent t e v).removeComponent t e).addComponent t e v2)
                (w.addComponent t e v2) := by
  have htb : (w.maskOf e).testBit t = false := by
    rw [← World.hasComponent_eq_testBit]
    exact hm
  have hAmasks : (w.addComponent t e v).masks =
      w.masks.set e (Mask.set (w.maskOf e) (Mask.bit t)) :=
    World.addComponent_masks w t e v he
  have hAmaskOf_e : (w.addComponent t e v).maskOf e = Mask.set (w.maskOf e) (Mask.bit t) := by
    rw [World.addComponent_maskOf, if_pos ⟨rfl, he⟩]
  have hRmasks : ((w.addComponent t e v).removeComponent t e).masks = w.masks := by
    show (w.addComponent t e v).masks.set e
      (Mask.clear ((w.addComponent t e v).maskOf e) (Mask.bit t)) = w.masks
    rw [hAmaskOf_e, Mask.clear_set_bit _ _ htb, hAmasks, List.set_set]
    exact set_getD_eq_self w.masks e 0
  have heR : e < ((w.addComponent t e v).removeComponent t e).masks.length := by
    rw [hRmasks]
    exact he
  have hRmaskOf : ∀ x, ((w.addComponent t e v).removeComponent t e).maskOf x = w.maskOf x := by
    intro x
    show ((w.addComponent t e v).removeComponent t e).masks.getD x 0 = w.masks.getD x 0
    rw [hRmasks]
  have hconj1 : ((w.addComponent t e v).removeComponent t e).hasComponent t e = false := by
    show Mask.test (((w.addComponent t e v).removeComponent t e).maskOf e) (Mask.bit t) = false
    rw [hRmaskOf e]
    exact hm
  refine ⟨hconj1, ?_, ?_, ?_⟩
  · show ((((w.addComponent t e v).removeComponent t e).addComponent t e v2).masks.length - 1 =
      ((w.addComponent t e v2).masks.length - 1))
    rw [World.addComponent_masks _ t e v2 heR, World.addComponent_masks w t e v2 he,
      List.length_set, List.length_set, hRmasks]
  · intro x
    show (((w.addComponent t e v).removeComponent t e).addComponent t e v2).masks.getD x 0 =
      (w.addComponent t e v2).masks.getD x 0
    rw [World.addComponent_masks _ t e v2 heR, World.addComponent_masks w t e v2 he,
      hRmasks, hRmaskOf e]
  · intro t2 x
    have hmaskFG : ∀ y,
        (((w.addComponent t e v).removeComponent t e).addComponent t e v2).maskOf y =
        (w.addComponent t e v2).maskOf y := by
      intro y
      show (((w.addComponent t e v).removeComponent t e).addComponent t e v2).masks.getD y 0 =
        (w.addComponent t e v2).masks.getD y 0
      rw [World.addComponent_masks _ t e v2 heR, World.addComponent_masks w t e v2 he,
        hRmasks, hRmaskOf e]
    have hhasFG :
        (((w.addComponent t e v).removeComponent t e).addComponent t e v2).hasComponent t2 x =
        (w.addComponent t e v2).hasComponent t2 x := by
      rw [World.hasComponent, World.hasComponent, hmaskFG x]
    by_cases ht2 : t2 = t
    · subst ht2
      cases hst : w.storageAt t2 with
      | packed s =>
        have hsP : s.hasEnt e = false := by
          simp only [World.storageHas, hst] at hs
          exact hs
        have hA := w.addComponent_storageAt_packed t2 e v s hst he
        have hR := (w.addComponent t2 e v).removeComponent_storageAt_packed t2 e _ hA
        have hF := ((w.addComponent t2 e v).removeComponent t2 e).addComponent_storageAt_packed
          t2 e v2 _ hR heR
        have hG := w.addComponent_storageAt_packed t2 e v2 s hst he
        simp only [World.getComponent, hF, hG]
        exact s.roundtrip_get e v v2 hsP x
      | sparse s =>
        have hA := w.addComponent_storageAt_sparse t2 e v s hst he
        have hR := (w.addComponent t2 e v).removeComponent_storageAt_sparse t2 e _ hA
        have hF := ((w.addComponent t2 e v).removeComponent t2 e).addComponent_storageAt_sparse
          t2 e v2 _ hR heR
        have hG := w.addComponent_storageAt_sparse t2 e v2 s hst he
        simp only [World.getComponent, hF, hG]
        exact s.roundtrip_get_sp e v v2 x
      | tagged =>
        have hA := w.addComponent_storageAt_tagged t2 e v hst
        have hR := (w.addComponent t2 e v).removeComponent_storageAt_tagged t2 e hA
        have hF := ((w.addComponent t2 e v).removeComponent t2 e).addComponent_storageAt_tagged
          t2 e v2 hR
        have hG := w.addComponent_storageAt_tagged t2 e v2 hst
        exact World.getComponent_congr _ _ t2 x (hF.trans hG.symm) hhasFG
    · have hsF : (((w.addComponent t e v).removeComponent t e).addComponent t e v2).storageAt t2 =
          w.storageAt t2 := by
        rw [((w.addComponent t e v).removeComponent t e).addComponent_storageAt_ne t e v2 t2 ht2,
          (w.addComponent t e v).removeComponent_storageAt_ne t e t2 ht2,
          w.addComponent_storageAt_ne t e v t2 ht2]
      have hsG : (w.addComponent t e v2).storageAt t2 = w.storageAt t2 :=
        w.addComponent_storageAt_ne t e v2 t2 ht2
      exact World.getComponent_congr _ _ t2 x (hsF.trans hsG.symm) hhasFG

theorem C5_witness :
    ((cwTag.addComponent 1 0 (2, 3)).removeComponent 1 0).hasComponent 1 0 = false ∧
    (((cwTag.addComponent 1 0 (2, 3)).removeComponent 1 0).addComponent 1 0 (4, 5)).getComponent
      1 0 = (cwTag.addComponent 1 0 (4, 5)).getComponent 1 0 :=
  ⟨(C5_add_remove_roundtrip cwTag 1 0 (2, 3) (4, 5) (by decide) (by decide) (by decide)).1,
   (C5_add_remove_roundtrip cwTag 1 0 (2, 3) (4, 5) (by decide) (by decide)
     (by decide)).2.2.2 1 0⟩

/-! ### MovementSystem lemmas -/

theorem foldl_bind_none (f : World → Nat → Option World) (l : List Nat) :
    l.foldl (fun acc id => acc.bind (fun wc => f wc id)) none = none := by
  induction l with
  | nil => rfl
  | cons a l ih => exact ih

theorem foldl_bind_reaches_none (f : World → Nat → Option World) (l : List Nat) (e : Nat)
    (I : World → Prop)
    (hstep : ∀ id w2, I w2 → id ≠ e → f w2 id = none ∨ ∃ w3, f w2 id = some w3 ∧ I w3)
    (hfail : ∀ w2, I w2 → f w2 e = none) :
    ∀ w, e ∈ l → I w →
      l.foldl (fun acc id => acc.bind (fun wc => f wc id)) (some w) = none := by
  induction l with
  | nil =>
    intro w he
    cases he
  | cons a l ih =>
    intro w he hI
    rw [List.foldl_cons]
    have hsb : (some w).bind (fun wc => f wc a) = f w a := rfl
    by_cases ha : a = e
    · subst ha
      rw [hsb, hfail w hI]
      exact foldl_bind_none f l
    · cases hstep a w hI ha with
      | inl hn =>
        rw [hsb, hn]
        exact foldl_bind_none f l
      | inr hex =>
        obtain ⟨w3, hw3, hI3⟩ := hex
        rw [hsb, hw3]
        have hel : e ∈ l := by
          cases List.mem_cons.mp he with
          | inl h => exact absurd h.symm ha
          | inr h => exact h
        exact ih w3 hel hI3

theorem Breakout.movementStep_eq_of_some (w : World) (id : Nat) (pos vel col : Payload)
    (h1 : Mask.test (w.maskOf id) Breakout.movementRequired = true)
    (h2 : Mask.test (w.maskOf id) (Mask.bit Breakout.DestroyedTagBit) = false)
    (hp : w.getComponent Breakout.PositionBit id = some pos)
    (hv : w.getComponent Breakout.VelocityBit id = some vel)
    (hc : w.getComponent Breakout.ColliderBit id = some col) :
    Breakout.movementStep w id =
      if Mask.test ((w.writeComponent Breakout.PositionBit id
            (pos.1 + vel.1, pos.2 + vel.2)).maskOf id) (Mask.bit Breakout.LaserTagBit) = true ∧
          pos.2 + vel.2 + col.2 < 0
      then some ((w.writeComponent Breakout.PositionBit id
        (pos.1 + vel.1, pos.2 + vel.2)).addComponent Breakout.DestroyedTagBit id (0, 0))
      else some (w.writeComponent Breakout.PositionBit id (pos.1 + vel.1, pos.2 + vel.2)) := by
  rw [Breakout.movementStep, if_neg (by simp [h1]), if_neg (by simp [h2]), hp, hv, hc]

/-- C10: MovementSystem iterates with a mask requiring only Position and
Velocity, yet unconditionally calls getComponent<Collider> on every
passing, not-yet-destroyed entity; whenever some entity up to maxId holds
Position and Velocity, is not marked destroyed, and has no Collider, the
fatal missing-component path is reached and the system aborts — it is
fatality-free only under the undocumented precondition that every entity
with Position and Velocity also holds Collider. -/
theorem C10_movement_missing_collider_fatal (w : World) (e : Nat)
    (he : e ≤ w.maxId)
    (hreq : Mask.test (w.maskOf e) Breakout.movementRequired = true)
    (hnd : Mask.test (w.maskOf e) (Mask.bit Breakout.DestroyedTagBit) = false)
    (hcol : w.getComponent Breakout.ColliderBit e = none) :
    Breakout.MovementSystem w = none := by
  have hfail : ∀ w2,
      (Mask.test (w2.maskOf e) Breakout.movementRequired = true ∧
       Mask.test (w2.maskOf e) (Mask.bit Breakout.DestroyedTagBit) = false ∧
       w2.getComponent Breakout.ColliderBit e = none) →
      Breakout.movementStep w2 e = none := by
    intro w2 hI
    rw [Breakout.movementStep, if_neg (by simp [hI.1]), if_neg (by simp [hI.2.1]), hI.2.2]
    cases w2.getComponent Breakout.PositionBit e <;>
      cases w2.getComponent Breakout.VelocityBit e <;> rfl
  have hstep : ∀ id w2,
      (Mask.test (w2.maskOf e) Breakout.movementRequired = true ∧
       Mask.test (w2.maskOf e) (Mask.bit Breakout.DestroyedTagBit) = false ∧
       w2.getComponent Breakout.ColliderBit e = none) → id ≠ e →
      Breakout.movementStep w2 id = none ∨
      ∃ w3, Breakout.movementStep w2 id = some w3 ∧
        (Mask.test (w3.maskOf e) Breakout.movementRequired = true ∧
         Mask.test (w3.maskOf e) (Mask.bit Breakout.DestroyedTagBit) = false ∧
         w3.getComponent Breakout.ColliderBit e = none) := by
    intro id w2 hI hid
    by_cases h1 : Mask.test (w2.maskOf id) Breakout.movementRequired = false
    · exact Or.inr ⟨w2, by rw [Breakout.movementStep, if_pos h1], hI⟩
    · by_cases h2 : Mask.test (w2.maskOf id) (Mask.bit Breakout.DestroyedTagBit) = true
      · exact Or.inr ⟨w2, by rw [Breakout.movementStep, if_neg h1, if_pos h2], hI⟩
      · have h1t : Mask.test (w2.maskOf id) Breakout.movementRequired = true := by
          revert h1
          cases Mask.test (w2.maskOf id) Breakout.movementRequired <;> simp
        have h2f : Mask.test (w2.maskOf id) (Mask.bit Breakout.DestroyedTagBit) = false := by
          revert h2
          cases Mask.test (w2.maskOf id) (Mask.bit Breakout.DestroyedTagBit) <;> simp
        cases hp : w2.getComponent Breakout.PositionBit id with
        | none =>
          refine Or.inl ?_
          rw [Breakout.movementStep, if_neg h1, if_neg h2, hp]
        | some pos =>
          cases hv : w2.getComponent Breakout.VelocityBit id with
          | none =>
            refine Or.inl ?_
            rw [Breakout.movementStep, if_neg h1, if_neg h2, hp, hv]
          | some vel =>
            cases hc : w2.getComponent Breakout.ColliderBit id with
            | none =>
              refine Or.inl ?_
              rw [Breakout.movementStep, if_neg h1, if_neg h2, hp, hv, hc]
            | some col =>
              refine Or.inr ?_
              rw [Breakout.movementStep_eq_of_some w2 id pos vel col h1t h2f hp hv hc]
              have hIcolW : (w2.writeComponent Breakout.PositionBit id
                  (pos.1 + vel.1, pos.2 + vel.2)).getComponent Breakout.ColliderBit e =
                  w2.getComponent Breakout.ColliderBit e :=
                World.getComponent_congr _ _ _ _
                  (w2.writeComponent_storageAt_ne Breakout.PositionBit id
                    (pos.1 + vel.1, pos.2 + vel.2) Breakout.ColliderBit (by decide)) rfl
              have hm4 : ∀ y, y ≠ id →
                  (((w2.writeComponent Breakout.PositionBit id
                    (pos.1 + vel.1, pos.2 + vel.2)).addComponent Breakout.DestroyedTagBit id
                    (0, 0)).maskOf y) = w2.maskOf y := by
                intro y hy
                rw [World.addComponent_maskOf, if_neg (fun hcc => hy hcc.1)]
                rfl
              have hcol4 : ((w2.writeComponent Breakout.PositionBit id
                  (pos.1 + vel.1, pos.2 + vel.2)).addComponent Breakout.DestroyedTagBit id
                  (0, 0)).getComponent Breakout.ColliderBit e =
                  w2.getComponent Breakout.ColliderBit e := by
                rw [World.getComponent_congr _ (w2.writeComponent Breakout.PositionBit id
                    (pos.1 + vel.1, pos.2 + vel.2)) Breakout.ColliderBit e
                  ((w2.writeComponent Breakout.PositionBit id
                    (pos.1 + vel.1, pos.2 + vel.2)).addComponent_storageAt_ne
                    Breakout.DestroyedTagBit id (0, 0) Breakout.ColliderBit (by decide))
                  (by rw [World.hasComponent_addComponent,
                    if_neg (fun hcc => (by decide :
                      ¬(Breakout.ColliderBit = Breakout.DestroyedTagBit)) hcc.1)]), hIcolW]
              by_cases hcond : (Mask.test ((w2.writeComponent Breakout.PositionBit id
                  (pos.1 + vel.1, pos.2 + vel.2)).maskOf id) (Mask.bit Breakout.LaserTagBit)
                  = true ∧ pos.2 + vel.2 + col.2 < 0)
              · rw [if_pos hcond]
                refine ⟨_, rfl, ?_, ?_, ?_⟩
                · rw [hm4 e (fun hcc => hid hcc.symm)]
                  exact hI.1
                · rw [hm4 e (fun hcc => hid hcc.symm)]
                  exact hI.2.1
                · rw [hcol4]
                  exact hI.2.2
              · rw [if_neg hcond]
                refine ⟨_, rfl, ?_, ?_, ?_⟩
                · exact hI.1
                · exact hI.2.1
                · rw [hIcolW]
                  exact hI.2.2
  rw [Breakout.MovementSystem]
  exact foldl_bind_reaches_none Breakout.movementStep (List.range (w.maxId + 1)) e _
    hstep hfail w (List.mem_range.mpr (Nat.lt_succ_of_le he)) ⟨hreq, hnd, hcol⟩

/-- Concrete world: entity 0 holds Position and Velocity but no Collider. -/
def cwMove : World :=
  ⟨[Mask.set (Mask.bit Breakout.PositionBit) (Mask.bit Breakout.VelocityBit)], [], 1, false⟩

theorem C10_witness : Breakout.MovementSystem cwMove = none :=
  C10_movement_missing_collider_fatal cwMove 0 (by decide) (by decide) (by decide) (by decide)
